import Mathlib

/-!
A verification development for the persistence layer and generation client of a
WhatsApp chat-companion bot.  The JavaScript source is embedded shallowly:

* JS values are modelled by the inductive `JVal` (with `undefined` for the JS undefined value);
  JS objects are association lists of fields in insertion order.
* ISO-8601 timestamp strings are in bijection with their epoch-millisecond
  values (for the dates the code produces), so the model represents every
  timestamp by its millisecond value as an `Int`.
* The filesystem is an association list from paths to file contents; a file
  content either parses to a document (`good d`) or fails to parse (`corrupt`).
* Async methods become pure functions; injected `Option String` parameters
  model a filesystem I/O failure (`some msg`) on the corresponding call.
-/

namespace WhatsAppFlow

/-- JS runtime values as manipulated by the persistence layer.  Numbers are
modelled as integers (the code only produces integral numbers: epoch
milliseconds, counters). -/
inductive JVal : Type where
  | undefined
  | null
  | bool (b : Bool)
  | num (n : Int)
  | str (s : String)
  | arr (xs : List JVal)
  | obj (fields : List (String × JVal))
deriving Repr

/-- Association-list lookup: the value of the first binding of `key`. -/
def lookupA {κ β : Type} [DecidableEq κ] : List (κ × β) → κ → Option β
  | [], _ => none
  | (k, v) :: rest, key => if k = key then some v else lookupA rest key

/-- Association-list update: JS property assignment keeps the position of an
existing property and appends a new one at the end. -/
def setA {κ β : Type} [DecidableEq κ] : List (κ × β) → κ → β → List (κ × β)
  | [], k, v => [(k, v)]
  | (k', v') :: rest, k, v =>
    if k' = k then (k', v) :: rest else (k', v') :: setA rest k v

/-- Association-list deletion (JS `delete o[k]`): removes every binding of `k`. -/
def delA {κ β : Type} [DecidableEq κ] (l : List (κ × β)) (k : κ) : List (κ × β) :=
  l.filter (fun p => p.1 ≠ k)

/-- Property read `o[k]`: a missing property, or a property read on a
non-object base, yields `undefined`. -/
def JVal.getF : JVal → String → JVal
  | .obj fs, k => (lookupA fs k).getD .undefined
  | _, _ => .undefined

/-- Property write `o[k] = v`.  The modelled code only assigns properties on
objects; on a non-object base the value is returned unchanged. -/
def JVal.setF : JVal → String → JVal → JVal
  | .obj fs, k, v => .obj (setA fs k v)
  | o, _, _ => o

/-- `delete o[k]`.  On a non-object base the value is returned unchanged. -/
def JVal.delF : JVal → String → JVal
  | .obj fs, k => .obj (delA fs k)
  | o, _ => o

/-- Whether an object has a property named `k` (`k in o`). -/
def JVal.hasF : JVal → String → Bool
  | .obj fs, k => fs.any (fun p => p.1 = k)
  | _, _ => false

/-- JS truthiness: `undefined`, `null`, `false`, `0` and `""` are falsy;
every object and array (including `[]` and an empty object) is truthy. -/
def JVal.truthy : JVal → Bool
  | .undefined => false
  | .null => false
  | .bool b => b
  | .num n => n ≠ 0
  | .str s => s ≠ ""
  | .arr _ => true
  | .obj _ => true

/-- JS strict equality `===` on the shapes the modelled code compares
(primitives).  Arrays and objects compare by reference in JS; the modelled
code never compares two of them, so the model returns `false` there. -/
def jsEq : JVal → JVal → Bool
  | .undefined, .undefined => true
  | .null, .null => true
  | .bool a, .bool b => a = b
  | .num a, .num b => a = b
  | .str a, .str b => a = b
  | _, _ => false

/-- The field list of a value, as seen by object spread `{...v}`: spreading
`null`, `undefined`, or a primitive contributes no fields.  (Spreading an
array would contribute index-named fields; no modelled call site spreads an
array into an object.) -/
def JVal.fieldsOf : JVal → List (String × JVal)
  | .obj fs => fs
  | _ => []

/-- `{...xs, ...ys}`: fields of `ys` overwrite same-named fields of `xs`,
later bindings in `ys` winning. -/
def mergeFields (xs ys : List (String × JVal)) : List (String × JVal) :=
  ys.foldl (fun acc p => setA acc p.1 p.2) xs

/-- The element list of an array value; the modelled code only applies this
to values it has ensured are arrays. -/
def asArr : JVal → List JVal
  | .arr xs => xs
  | _ => []

/-- `l.slice(-n)` on an array of length `≥ 0`: the last `n` elements.
JS quirk faithfully kept: `slice(-0)` is `slice(0)`, the whole array. -/
def sliceNeg {α : Type} (n : Nat) (l : List α) : List α :=
  if n = 0 then l else l.drop (l.length - n)

/-- The last `n` elements of a list (used in specification statements). -/
def takeLast {α : Type} (n : Nat) (l : List α) : List α :=
  l.drop (l.length - n)

/-! ## AtomicStore: `FileUtils.readJsonFile` / `FileUtils.writeJsonFile` -/

/-- Contents of one file: either valid JSON serializing document `d`, or text
that fails to parse. -/
inductive FileContent : Type where
  | good (d : JVal)
  | corrupt (garbage : String)
deriving Repr

/-- The filesystem: an association list from paths to file contents. -/
abbrev FS := List (String × FileContent)

/-- Errors raised by the modelled filesystem and JSON layer. -/
inductive JsErr : Type where
  | enoent
  | ioErr (m : String)
  | parseErr
deriving Repr, DecidableEq

/-- `fs.readFile(p)`: the injected `io` failure models any non-ENOENT I/O
error; a missing path raises ENOENT. -/
def fsReadFile (io : Option String) (fs : FS) (p : String) :
    Except JsErr FileContent :=
  match io with
  | some m => .error (.ioErr m)
  | none =>
    match lookupA fs p with
    | none => .error .enoent
    | some c => .ok c

/-- `JSON.parse` on a file's contents. -/
def jsonParse : FileContent → Except JsErr JVal
  | .good d => .ok d
  | .corrupt _ => .error .parseErr

/-- `FileUtils.readJsonFile(filePath, defaultValue)`: read and parse; the
catch block resolves an ENOENT error to the default value and rethrows every
other error (including a parse failure). -/
def readJsonFile (io : Option String) (fs : FS) (p : String) (dflt : JVal) :
    Except JsErr JVal :=
  match (fsReadFile io fs p).bind jsonParse with
  | .error .enoent => .ok dflt
  | .error e => .error e
  | .ok v => .ok v

/-- `fs.writeFile(p, contents)` with an injected I/O failure. -/
def fsWriteFile (io : Option String) (fs : FS) (p : String) (c : FileContent) :
    Except JsErr FS :=
  match io with
  | some m => .error (.ioErr m)
  | none => .ok (setA fs p c)

/-- `fs.rename(src, dst)`. -/
def fsRename (fs : FS) (src dst : String) : Except JsErr FS :=
  match lookupA fs src with
  | none => .error .enoent
  | some c => .ok (setA (delA fs src) dst c)

/-- `FileUtils.writeJsonFile(filePath, data)`: serialize to the temporary
sibling `filePath + ".tmp"`, then rename it onto `filePath`.  (`ensureDir`
is a no-op in the model, which has no directories; its failures are covered
by the injected `io` failure.)  The catch block logs and rethrows, so every
error propagates. -/
def writeJsonFile (io : Option String) (fs : FS) (p : String) (d : JVal) :
    Except JsErr FS :=
  (fsWriteFile io fs (p ++ ".tmp") (.good d)).bind
    (fun fs1 => fsRename fs1 (p ++ ".tmp") p)

/-! ## LockManager: `acquireLock` / `releaseLock`

Each repository instance keeps `this.lockMap`, a map from entity keys to a
held marker.  `acquireLock` polls until the key is absent and then marks it;
`releaseLock` deletes the marker. -/

/-- A successful `acquireLock(key)`: the polling loop has observed `key`
absent from the lock map and marks it held. -/
def acquireLockNow (k : String) (locks : List String) : List String :=
  k :: locks

/-- `releaseLock(key)`: `lockMap.delete(key)`. -/
def releaseLock (k : String) (locks : List String) : List String :=
  locks.erase k

/-! ## JsonDatabase (chat-history document) -/

/-- `config.paths.chatHistoryFile` (default value). -/
def chatHistoryFile : String := "data/chat_history.json"

/-- `getTimeOfDay()`, applied to the current hour in Asia/Colombo. -/
def getTimeOfDay (hour : Nat) : String :=
  if 5 ≤ hour ∧ hour < 12 then "morning"
  else if 12 ≤ hour ∧ hour < 17 then "afternoon"
  else if 17 ≤ hour ∧ hour < 21 then "evening"
  else "night"

/-- The lazy entity-bucket creation idiom `if (!doc[k]) doc[k] = dflt` used
at the top of every keyed operation. -/
def ensureKey (doc : JVal) (k : String) (dflt : JVal) : JVal :=
  if (doc.getF k).truthy then doc else doc.setF k dflt

/-- The message object literal built by `addMessage`, with the `...metadata`
spread applied last (its fields overwrite the base fields). -/
def mkMessage (now : Int) (hour : Nat) (localTime : String)
    (role content : String) (metadata : List (String × JVal)) : JVal :=
  .obj (mergeFields
    [("id", .str (toString now)),
     ("role", .str role),
     ("content", .str content),
     ("timestamp", .num now),
     ("localTime", .str localTime),
     ("timeOfDay", .str (getTimeOfDay hour))]
    metadata)

/-- The append-and-trim step of `addMessage`: push the new message, then, if
the array exceeds `maxHistory`, keep `slice(-maxHistory)`. -/
def pushTrimEnd (maxHistory : Nat) (hist : List JVal) (m : JVal) : List JVal :=
  let h1 := hist ++ [m]
  if maxHistory < h1.length then sliceNeg maxHistory h1 else h1

/-- The duplicate check of `addMessage` over the recent messages: same
content, same role, and `Date.now() - new Date(msg.timestamp).getTime() <
5000` (a non-numeric timestamp gives NaN, and a NaN comparison is false). -/
def isDuplicateIn (now : Int) (role content : String)
    (recentMessages : List JVal) : Bool :=
  recentMessages.any (fun m =>
    jsEq (m.getF "content") (.str content) &&
    jsEq (m.getF "role") (.str role) &&
    (match m.getF "timestamp" with
     | .num t => now - t < 5000
     | _ => false))

/-- The critical section of `JsonDatabase.addMessage(senderId, role, content,
metadata)` as a pure transformation of the stored document: returns the
result value (`none` models the `null` duplicate result) and the document
that is persisted (unchanged when no write happens). -/
def addMessageDoc (now : Int) (hour : Nat) (localTime : String)
    (maxHistory : Nat) (doc : JVal) (senderId role content : String)
    (metadata : List (String × JVal)) : Option JVal × JVal :=
  let doc1 := ensureKey doc senderId (.arr [])
  let hist := asArr (doc1.getF senderId)
  let recentMessages := sliceNeg 5 hist
  let isDuplicate := isDuplicateIn now role content recentMessages
  if isDuplicate && !((JVal.obj metadata).getF "forceDuplicate").truthy then
    (none, doc)
  else
    let message := mkMessage now hour localTime role content metadata
    (some message, doc1.setF senderId (.arr (pushTrimEnd maxHistory hist message)))

/-- The critical section of `JsonDatabase.storeContact` as a pure document
transformation: returns the stored `contactInfo` and the persisted document. -/
def storeContactDoc (now : Int) (doc : JVal)
    (userId contactName contactNumber relationship : String) : JVal × JVal :=
  let doc1 := ensureKey doc userId (.arr [])
  let hist := asArr (doc1.getF userId)
  let existingContactIndex := hist.findIdx? (fun m =>
    jsEq (m.getF "type") (.str "contact") &&
    -- msg.contactName?.toLowerCase() === contactName.toLowerCase(); optional
    -- chaining makes a missing contactName compare unequal
    (match m.getF "contactName" with
     | .str s => s.toLower == contactName.toLower
     | _ => false))
  let contactInfo : JVal := .obj
    [("id", .str (toString now)), ("type", .str "contact"),
     ("contactName", .str contactName), ("contactNumber", .str contactNumber),
     ("relationship", .str relationship), ("timestamp", .num now),
     ("addedBy", .str "user")]
  let hist1 := match existingContactIndex with
    | some i => hist.set i contactInfo
    | none => hist ++ [contactInfo]
  (contactInfo, doc1.setF userId (.arr hist1))

/-- The critical section of `JsonDatabase.storeEmotionalContext` as a pure
document transformation: push the emotional entry, then keep only the last
10 entries of type `emotional_context` (removing older ones by id). -/
def storeEmotionalContextDoc (now : Int) (doc : JVal) (userId : String)
    (context : JVal) : JVal :=
  let doc1 := ensureKey doc userId (.arr [])
  let hist := asArr (doc1.getF userId)
  let emotionalEntry : JVal := .obj
    [("id", .str (toString now)), ("type", .str "emotional_context"),
     ("context", context), ("timestamp", .num now)]
  let hist1 := hist ++ [emotionalEntry]
  let emotionalEntries := hist1.filter (fun m =>
    jsEq (m.getF "type") (.str "emotional_context"))
  let hist2 :=
    if 10 < emotionalEntries.length then
      let toRemove := emotionalEntries.take (emotionalEntries.length - 10)
      hist1.filter (fun m =>
        !(toRemove.any (fun r => jsEq (r.getF "id") (m.getF "id"))))
    else hist1
  doc1.setF userId (.arr hist2)

/-- The critical section of `JsonDatabase.clearMessagesForSender`:
`delete chatHistory[senderId]`. -/
def clearMessagesForSenderDoc (doc : JVal) (senderId : String) : JVal :=
  doc.delF senderId

/-! ## MemoryManager (user-memory document) -/

/-- `this.memoryFile`. -/
def memoryFile : String := "data/user_memories.json"

/-- `createEmptyMemoryProfile()`; the two ISO timestamps are modelled by the
current epoch milliseconds. -/
def createEmptyMemoryProfile (now : Int) : JVal :=
  .obj
    [("personalInfo", .obj
       [("name", .null), ("age", .null), ("school", .null), ("grade", .null),
        ("subjects", .arr []), ("hobbies", .arr []), ("family", .obj []),
        ("location", .null)]),
     ("relationships", .obj
       [("friends", .obj []), ("crushes", .obj []), ("family", .obj []),
        ("teachers", .obj [])]),
     ("preferences", .obj
       [("favoriteSubjects", .arr []), ("dislikedSubjects", .arr []),
        ("favoriteFood", .arr []), ("favoriteMovies", .arr []),
        ("favoriteMusic", .arr []), ("favoriteColors", .arr [])]),
     ("emotionalProfile", .obj
       [("currentMood", .null), ("stressLevel", .str "normal"),
        ("personalityTraits", .arr []), ("emotionalPatterns", .arr []),
        ("supportNeeds", .arr [])]),
     ("academicInfo", .obj
       [("stream", .null), ("currentGrade", .null), ("strongSubjects", .arr []),
        ("weakSubjects", .arr []), ("examSchedule", .obj []),
        ("studyHabits", .arr []), ("academicGoals", .arr [])]),
     ("lifeEvents", .obj
       [("importantDates", .obj []), ("achievements", .arr []),
        ("challenges", .arr []), ("goals", .arr []), ("recentEvents", .arr [])]),
     ("conversationContext", .obj
       [("lastTopics", .arr []), ("ongoingIssues", .arr []),
        ("promisesToKeep", .arr []), ("thingsToRemember", .arr []),
        ("lastInteraction", .null)]),
     ("contacts", .obj []),
     ("createdAt", .num now),
     ("lastUpdated", .num now)]

/-- `typeof v === 'object' && !Array.isArray(v)`: true for objects and —
because `typeof null === 'object'` in JS — for `null`. -/
def isObjectNotArray : JVal → Bool
  | .obj _ => true
  | .null => true
  | _ => false

/-- The critical section of `MemoryManager.updateMemory(userId, category,
data, merge)`: returns the updated profile (the method's result) and the
persisted document. -/
def updateMemoryDoc (now : Int) (doc : JVal) (userId category : String)
    (data : JVal) (merge : Bool) : JVal × JVal :=
  let doc1 := ensureKey doc userId (createEmptyMemoryProfile now)
  let prof := doc1.getF userId
  let catVal := prof.getF category
  let newCat :=
    if merge && isObjectNotArray catVal then
      .obj (mergeFields catVal.fieldsOf data.fieldsOf)  -- { ...old, ...data }
    else data
  let prof1 := (prof.setF category newCat).setF "lastUpdated" (.num now)
  (prof1, doc1.setF userId prof1)

/-- The item stamping of `addToMemoryArray`: objects get a `timestamp` field
spread in; primitives are wrapped as `{content, timestamp}`.  (`typeof` puts
`null` and arrays on the object branch.) -/
def itemWithTimestamp (now : Int) (item : JVal) : JVal :=
  match item with
  | .obj fs => .obj (mergeFields fs [("timestamp", .num now)])
  | .null => .obj [("timestamp", .num now)]
  | .arr _ => .obj [("timestamp", .num now)]
  | x => .obj [("content", x), ("timestamp", .num now)]

/-- The unshift-and-trim step of `addToMemoryArray`: insert at the front,
then, if the array exceeds `maxItems`, keep `slice(0, maxItems)`. -/
def unshiftTrimFront (maxItems : Nat) (l : List JVal) (m : JVal) : List JVal :=
  let l1 := m :: l
  if maxItems < l1.length then l1.take maxItems else l1

/-- The critical section of `MemoryManager.addToMemoryArray(userId, category,
subcategory, item, maxItems)`: returns the updated profile and the persisted
document. -/
def addToMemoryArrayDoc (now : Int) (doc : JVal)
    (userId category subcategory : String) (item : JVal) (maxItems : Nat) :
    JVal × JVal :=
  let doc1 := ensureKey doc userId (createEmptyMemoryProfile now)
  let prof := doc1.getF userId
  let prof1 := if (prof.getF category).truthy then prof
               else prof.setF category (.obj [])
  let catVal := prof1.getF category
  let catVal1 :=
    match catVal.getF subcategory with
    | .arr _ => catVal
    | _ => catVal.setF subcategory (.arr [])
  let subArr := asArr (catVal1.getF subcategory)
  let subArr1 := unshiftTrimFront maxItems subArr (itemWithTimestamp now item)
  let catVal2 := catVal1.setF subcategory (.arr subArr1)
  let prof2 := (prof1.setF category catVal2).setF "lastUpdated" (.num now)
  (prof2, doc1.setF userId prof2)

/-- The critical section of `MemoryManager.clearUserMemory`:
`delete memories[userId]`. -/
def clearUserMemoryDoc (doc : JVal) (userId : String) : JVal :=
  doc.delF userId

/-! ## Repository operations run against the store

`readIo` / `writeIo` inject a filesystem failure into the corresponding call
(`none` means the call succeeds at the filesystem level). -/

/-- `JsonDatabase.readChatHistory()`: the catch block logs the error and
returns `{}` — read failures never reach the caller. -/
def readChatHistory (readIo : Option String) (fs : FS) : JVal :=
  match readJsonFile readIo fs chatHistoryFile (.obj []) with
  | .ok d => d
  | .error _ => .obj []

/-- `MemoryManager.readMemories()`: same catch-and-default behaviour. -/
def readMemories (readIo : Option String) (fs : FS) : JVal :=
  match readJsonFile readIo fs memoryFile (.obj []) with
  | .ok d => d
  | .error _ => .obj []

/-- `JsonDatabase.writeChatHistory(data)`: the catch block logs and rethrows,
so write failures propagate. -/
def writeChatHistory (writeIo : Option String) (fs : FS) (d : JVal) :
    Except JsErr FS :=
  writeJsonFile writeIo fs chatHistoryFile d

/-- `MemoryManager.writeMemories(data)`: logs and rethrows. -/
def writeMemories (writeIo : Option String) (fs : FS) (d : JVal) :
    Except JsErr FS :=
  writeJsonFile writeIo fs memoryFile d

/-- One complete `JsonDatabase.addMessage` call: acquire the per-sender lock,
read (read failures already swallowed by `readChatHistory`), transform, write
(failures rethrown by the catch block), and release the lock in the `finally`
block.  Returns (outcome, final filesystem, final lock map). -/
def addMessageRun (readIo writeIo : Option String) (fs : FS)
    (locks : List String) (now : Int) (hour : Nat) (localTime : String)
    (maxHistory : Nat) (senderId role content : String)
    (metadata : List (String × JVal)) :
    Except JsErr (Option JVal) × FS × List String :=
  let locks1 := acquireLockNow senderId locks
  let doc := readChatHistory readIo fs
  match addMessageDoc now hour localTime maxHistory doc senderId role content
      metadata with
  | (none, _) => (.ok none, fs, releaseLock senderId locks1)
  | (some msg, doc1) =>
    match writeChatHistory writeIo fs doc1 with
    | .ok fs1 => (.ok (some msg), fs1, releaseLock senderId locks1)
    | .error e => (.error e, fs, releaseLock senderId locks1)

/-- One complete `JsonDatabase.storeEmotionalContext` call.  Its catch block
logs the error and does NOT rethrow, so the call always resolves; the
`finally` block releases the lock either way. -/
def storeEmotionalContextRun (readIo writeIo : Option String) (fs : FS)
    (locks : List String) (now : Int) (userId : String) (context : JVal) :
    Except JsErr Unit × FS × List String :=
  let locks1 := acquireLockNow userId locks
  let doc := readChatHistory readIo fs
  let doc1 := storeEmotionalContextDoc now doc userId context
  match writeChatHistory writeIo fs doc1 with
  | .ok fs1 => (.ok (), fs1, releaseLock userId locks1)
  | .error _ => (.ok (), fs, releaseLock userId locks1)

/-- One complete `JsonDatabase.clearMessagesForSender` call: acquire, read
(read failures swallowed by `readChatHistory`), delete the key, write
(failures rethrown by the catch block), release in `finally`. -/
def clearMessagesForSenderRun (readIo writeIo : Option String) (fs : FS)
    (locks : List String) (senderId : String) :
    Except JsErr Unit × FS × List String :=
  let locks1 := acquireLockNow senderId locks
  let doc := readChatHistory readIo fs
  let doc1 := clearMessagesForSenderDoc doc senderId
  match writeChatHistory writeIo fs doc1 with
  | .ok fs1 => (.ok (), fs1, releaseLock senderId locks1)
  | .error e => (.error e, fs, releaseLock senderId locks1)

/-- One complete `MemoryManager.updateMemory` call: acquire, read (failures
swallowed by `readMemories`), update the category, write (failures rethrown
by the catch block), release in `finally`; on success the method returns the
updated profile. -/
def updateMemoryRun (readIo writeIo : Option String) (fs : FS)
    (locks : List String) (now : Int) (userId category : String)
    (data : JVal) (merge : Bool) :
    Except JsErr JVal × FS × List String :=
  let locks1 := acquireLockNow userId locks
  let doc := readMemories readIo fs
  let r := updateMemoryDoc now doc userId category data merge
  match writeMemories writeIo fs r.2 with
  | .ok fs1 => (.ok r.1, fs1, releaseLock userId locks1)
  | .error e => (.error e, fs, releaseLock userId locks1)

/-- One complete `MemoryManager.addToMemoryArray` call: acquire, read,
unshift into the capped subcategory array, write (failures rethrown by the
catch block), release in `finally`; on success the method returns the
updated profile. -/
def addToMemoryArrayRun (readIo writeIo : Option String) (fs : FS)
    (locks : List String) (now : Int) (userId category subcategory : String)
    (item : JVal) (maxItems : Nat) :
    Except JsErr JVal × FS × List String :=
  let locks1 := acquireLockNow userId locks
  let doc := readMemories readIo fs
  let r := addToMemoryArrayDoc now doc userId category subcategory item
    maxItems
  match writeMemories writeIo fs r.2 with
  | .ok fs1 => (.ok r.1, fs1, releaseLock userId locks1)
  | .error e => (.error e, fs, releaseLock userId locks1)

/-- One complete `MemoryManager.clearUserMemory` call: acquire, read, delete
the key, write (failures rethrown by the catch block), release in
`finally`. -/
def clearUserMemoryRun (readIo writeIo : Option String) (fs : FS)
    (locks : List String) (userId : String) :
    Except JsErr Unit × FS × List String :=
  let locks1 := acquireLockNow userId locks
  let doc := readMemories readIo fs
  let doc1 := clearUserMemoryDoc doc userId
  match writeMemories writeIo fs doc1 with
  | .ok fs1 => (.ok (), fs1, releaseLock userId locks1)
  | .error e => (.error e, fs, releaseLock userId locks1)

/-! ## GeminiClient: credential pool -/

/-- The mutable per-credential state of `GeminiClient`: `clients` holds the
indices with an initialized client in insertion order (`0, 1, …` from the
constructor), `failedKeys` the quarantined indices, and `keyUsageCount` the
usage counters. -/
structure GeminiPool : Type where
  clients : List Nat
  failedKeys : List Nat
  keyUsageCount : List (Nat × Nat)
deriving Repr

/-- `this.keyUsageCount.get(i) || 0`. -/
def usageOf (usage : List (Nat × Nat)) (i : Nat) : Nat :=
  (lookupA usage i).getD 0

/-- `getLeastUsedKey(availableKeys = null)`: scan `keysToCheck` keeping the
first key of strictly minimal usage.  On an empty `keysToCheck` the source
returns `undefined`, modelled as `none`. -/
def getLeastUsedKey (p : GeminiPool) (availableKeys : Option (List Nat)) :
    Option Nat :=
  let keysToCheck := availableKeys.getD p.clients
  match keysToCheck with
  | [] => none
  | k0 :: _ =>
    some (keysToCheck.foldl
      (fun acc keyIndex =>
        let usage := usageOf p.keyUsageCount keyIndex
        if usage < acc.2 then (keyIndex, usage) else acc)
      (k0, usageOf p.keyUsageCount k0)).1

/-- `getNextKeyIndex()`: filter out quarantined keys; if none remain, clear
all quarantine flags and select over the whole set.  Returns the selected
index and the (possibly reset) pool. -/
def getNextKeyIndex (p : GeminiPool) : Option Nat × GeminiPool :=
  let availableKeys := p.clients.filter (fun i => !(p.failedKeys.contains i))
  if availableKeys.isEmpty then
    let p1 := { p with failedKeys := [] }
    (getLeastUsedKey p1 none, p1)
  else
    (getLeastUsedKey p (some availableKeys), p)

/-! ## GeminiClient: `generateContent` retry loop -/

/-- JS `String.prototype.trim()` (ASCII whitespace as used here). -/
def jsTrim (s : String) : String :=
  ⟨((s.data.dropWhile Char.isWhitespace).reverse.dropWhile
      Char.isWhitespace).reverse⟩

/-- The outcome of one attempt's `try` body up to receiving the response
text: either an exception with a message, or a response string. -/
inductive AttemptOutcome : Type where
  | threwWith (m : String)
  | respondedWith (text : String)
deriving Repr

/-- The error message an attempt contributes as `lastError`: the exception's
message, or the internally thrown `Empty response from Gemini API` when the
response text trims to nothing; `none` when the attempt succeeds. -/
def attemptFailureMsg : AttemptOutcome → Option String
  | .threwWith m => some m
  | .respondedWith t =>
    if jsTrim t = "" then some "Empty response from Gemini API" else none

/-- The terminal error message after exhausting all retries.  With zero
attempts `lastError` is `undefined` (the source would crash reading
`.message`; `generateContent` is always called with `maxRetries ≥ 1`). -/
def exhaustedMessage (maxRetries : Nat) (lastError : Option String) : String :=
  "Failed to generate content after " ++ toString maxRetries ++
    " attempts: " ++ (lastError.getD "undefined")

/-- The `while (attempts < maxRetries)` loop of `generateContent`, modelled
by structural recursion on `remaining = maxRetries - attempts` (the loop
guard's slack).  `oracle i` is the outcome of the `try` body on the i-th
invocation.  Returns the result and the number of invocations made. -/
def generateContentLoop (oracle : Nat → AttemptOutcome) (maxRetries : Nat) :
    Nat → Nat → Option String → Except String String × Nat
  | attempts, 0, lastError =>
    (.error (exhaustedMessage maxRetries lastError), attempts)
  | attempts, remaining + 1, _lastError =>
    match oracle attempts with
    | .respondedWith t =>
      if jsTrim t = "" then
        generateContentLoop oracle maxRetries (attempts + 1) remaining
          (some "Empty response from Gemini API")
      else (.ok (jsTrim t), attempts + 1)
    | .threwWith m =>
      generateContentLoop oracle maxRetries (attempts + 1) remaining (some m)

/-- `generateContent` with `maxRetries` attempts: run the loop from
`attempts = 0` with `lastError` undefined. -/
def generateContent (oracle : Nat → AttemptOutcome) (maxRetries : Nat) :
    Except String String × Nat :=
  generateContentLoop oracle maxRetries 0 maxRetries none

/-! ## Interleaving model for two concurrent repository operations

Each repository critical section is `acquireLock(key)`; read the whole
document into a local variable; modify the local copy at its own key; write
the whole modified copy back; `releaseLock(key)` — exactly the shape of
`addMessage` / `updateMemory`.  The event loop may switch between the two
operations at each `await` point, giving the step relation below.  The
modification is modelled as appending the operation's value to the array at
its key (the repository's append-style update). -/

/-- The read-modify-write-back of one critical section applied to the local
copy `d`: append `v` to the array at `k` and return the whole document to be
written. -/
def appendAt (k : String) (v : JVal) (d : JVal) : JVal :=
  d.setF k (.arr (asArr (d.getF k) ++ [v]))

/-- Control state of one operation. -/
inductive OpPhase : Type where
  | start
  | locked
  | readDone (localDoc : JVal)
  | written
  | finished
deriving Repr

/-- Shared state: the stored document (one file backs both keys), the lock
map, and the two operations' control states. -/
structure RaceState : Type where
  doc : JVal
  locks : List String
  op0 : OpPhase
  op1 : OpPhase
deriving Repr

/-- One event-loop step of the two concurrent operations; operation `i`
works on key `kᵢ` appending value `vᵢ`. -/
inductive RaceStep (k0 k1 : String) (v0 v1 : JVal) :
    RaceState → RaceState → Prop where
  | acquire0 (s : RaceState) : s.op0 = .start → k0 ∉ s.locks →
      RaceStep k0 k1 v0 v1 s
        { s with op0 := .locked, locks := acquireLockNow k0 s.locks }
  | read0 (s : RaceState) : s.op0 = .locked →
      RaceStep k0 k1 v0 v1 s { s with op0 := .readDone s.doc }
  | write0 (s : RaceState) (d : JVal) : s.op0 = .readDone d →
      RaceStep k0 k1 v0 v1 s
        { s with op0 := .written, doc := appendAt k0 v0 d }
  | release0 (s : RaceState) : s.op0 = .written →
      RaceStep k0 k1 v0 v1 s
        { s with op0 := .finished, locks := releaseLock k0 s.locks }
  | acquire1 (s : RaceState) : s.op1 = .start → k1 ∉ s.locks →
      RaceStep k0 k1 v0 v1 s
        { s with op1 := .locked, locks := acquireLockNow k1 s.locks }
  | read1 (s : RaceState) : s.op1 = .locked →
      RaceStep k0 k1 v0 v1 s { s with op1 := .readDone s.doc }
  | write1 (s : RaceState) (d : JVal) : s.op1 = .readDone d →
      RaceStep k0 k1 v0 v1 s
        { s with op1 := .written, doc := appendAt k1 v1 d }
  | release1 (s : RaceState) : s.op1 = .written →
      RaceStep k0 k1 v0 v1 s
        { s with op1 := .finished, locks := releaseLock k1 s.locks }

/-- Reachability for the two-operation model. -/
def RaceReaches (k0 k1 : String) (v0 v1 : JVal) : RaceState → RaceState → Prop :=
  Relation.ReflTransGen (RaceStep k0 k1 v0 v1)

/-- Initial state: document `d0` on disk, no locks held, both operations not
yet started. -/
def raceInit (d0 : JVal) : RaceState :=
  { doc := d0, locks := [], op0 := .start, op1 := .start }

/-! ## LockManager as a transition system (claim C7) -/

/-- Control state of one client of the lock manager. -/
inductive ProcPhase : Type where
  | idle
  | waiting (k : String)
  | holding (k : String)
deriving Repr, DecidableEq

/-- The lock manager with `n` clients: the lock map (`this.lockMap`, as the
list of held keys) and each client's control state. -/
structure LMState (n : Nat) : Type where
  locks : List String
  procs : Fin n → ProcPhase

/-- Steps of the lock manager model: a client decides to acquire a key
(`want`); a waiting client's poll observes the key absent from the lock map
and marks it held (`acquire`); a holding client releases (`release`, the
`lockMap.delete`).  A poll that observes the key present changes nothing and
is omitted. -/
inductive LMStep {n : Nat} : LMState n → LMState n → Prop where
  | want (s : LMState n) (i : Fin n) (k : String) : s.procs i = .idle →
      LMStep s { s with procs := Function.update s.procs i (.waiting k) }
  | acquire (s : LMState n) (i : Fin n) (k : String) :
      s.procs i = .waiting k → k ∉ s.locks →
      LMStep s
        { locks := acquireLockNow k s.locks,
          procs := Function.update s.procs i (.holding k) }
  | release (s : LMState n) (i : Fin n) (k : String) :
      s.procs i = .holding k →
      LMStep s
        { locks := releaseLock k s.locks,
          procs := Function.update s.procs i .idle }

/-- Reachability for the lock-manager model. -/
def LMReaches {n : Nat} : LMState n → LMState n → Prop :=
  Relation.ReflTransGen LMStep

/-- Initial state: empty lock map, all clients idle. -/
def lmInit (n : Nat) : LMState n :=
  { locks := [], procs := fun _ => .idle }

/-! ## Basic lemmas about the association-list operations -/

theorem lookupA_setA_self {κ β : Type} [DecidableEq κ]
    (l : List (κ × β)) (k : κ) (v : β) : lookupA (setA l k v) k = some v := by
  induction l with
  | nil => simp [setA, lookupA]
  | cons p rest ih =>
    by_cases h : p.1 = k
    · obtain ⟨k1, v1⟩ := p
      simp_all [setA, lookupA]
    · obtain ⟨k1, v1⟩ := p
      simp only at h
      simp [setA, lookupA, h, ih]

theorem lookupA_setA_ne {κ β : Type} [DecidableEq κ]
    (l : List (κ × β)) (k k' : κ) (v : β) (h : k' ≠ k) :
    lookupA (setA l k v) k' = lookupA l k' := by
  have hk : ¬ k = k' := fun e => h e.symm
  induction l with
  | nil => simp [setA, lookupA, hk]
  | cons p rest ih =>
    obtain ⟨k1, v1⟩ := p
    by_cases h1 : k1 = k
    · subst h1
      simp [setA, lookupA, hk]
    · simp [setA, lookupA, h1, ih]

theorem lookupA_delA_ne {κ β : Type} [DecidableEq κ]
    (l : List (κ × β)) (k k' : κ) (h : k' ≠ k) :
    lookupA (delA l k) k' = lookupA l k' := by
  have hk : ¬ k = k' := fun e => h e.symm
  induction l with
  | nil => rfl
  | cons p rest ih =>
    obtain ⟨k1, v1⟩ := p
    by_cases h1 : k1 = k
    · subst h1
      simp only [delA, List.filter_cons, decide_not] at ih ⊢
      simp [lookupA, hk, ih]
    · simp only [delA, List.filter_cons, decide_not] at ih ⊢
      simp [lookupA, h1, ih]

theorem delA_eq_of_not_mem {κ β : Type} [DecidableEq κ]
    (l : List (κ × β)) (k : κ) (h : ∀ p ∈ l, p.1 ≠ k) : delA l k = l := by
  simp only [delA]
  rw [List.filter_eq_self]
  intro p hp
  simpa using h p hp

/-! ## Frame lemmas for document updates -/

theorem getF_setF_ne (d : JVal) (k k' : String) (v : JVal) (h : k' ≠ k) :
    (d.setF k v).getF k' = d.getF k' := by
  cases d <;> try rfl
  case obj fs => simp [JVal.setF, JVal.getF, lookupA_setA_ne fs k k' v h]

theorem getF_delF_ne (d : JVal) (k k' : String) (h : k' ≠ k) :
    (d.delF k).getF k' = d.getF k' := by
  cases d <;> try rfl
  case obj fs => simp [JVal.delF, JVal.getF, lookupA_delA_ne fs k k' h]

theorem delF_eq_of_not_has (d : JVal) (k : String) (h : d.hasF k = false) :
    d.delF k = d := by
  cases d <;> try rfl
  case obj fs =>
    simp only [JVal.hasF, List.any_eq_false] at h
    have h' : ∀ p ∈ fs, p.1 ≠ k := by
      intro p hp
      simpa using h p hp
    simp [JVal.delF, delA_eq_of_not_mem fs k h']

/-! ## Claim C3: write-then-read round trip -/

/-- **C3.** For every well-formed document `d` and path `p`, `writeJsonFile`
(serialize to the `.tmp` sibling, then rename onto `p`) followed by
`readJsonFile` with any default returns exactly `d`. -/
theorem c3_write_read_roundtrip (fs : FS) (p : String) (d dflt : JVal) :
    ∃ fs', writeJsonFile none fs p d = .ok fs' ∧
      readJsonFile none fs' p dflt = .ok d := by
  refine ⟨setA (delA (setA fs (p ++ ".tmp") (.good d)) (p ++ ".tmp")) p (.good d),
    ?_, ?_⟩
  · simp [writeJsonFile, fsWriteFile, fsRename, Except.bind, lookupA_setA_self]
  · simp [readJsonFile, fsReadFile, Except.bind, lookupA_setA_self, jsonParse]

/-! ## Claim C4: read semantics — default only on a missing file -/

/-- **C4.** `readJsonFile(p, v)` returns the default `v` when the file is
missing (ENOENT); a non-ENOENT I/O failure and a parse failure both raise an
error to the caller; an existing, parseable file returns its own contents. -/
theorem c4_read_default_and_errors (fs : FS) (p : String) (v : JVal) :
    (lookupA fs p = none → readJsonFile none fs p v = .ok v) ∧
    (∀ m, readJsonFile (some m) fs p v = .error (.ioErr m)) ∧
    (∀ g, lookupA fs p = some (.corrupt g) →
      readJsonFile none fs p v = .error .parseErr) ∧
    (∀ d, lookupA fs p = some (.good d) →
      readJsonFile none fs p v = .ok d) := by
  refine ⟨fun h => ?_, fun m => ?_, fun g h => ?_, fun d h => ?_⟩
  · simp [readJsonFile, fsReadFile, h, Except.bind]
  · simp [readJsonFile, fsReadFile, Except.bind]
  · simp [readJsonFile, fsReadFile, h, Except.bind, jsonParse]
  · simp [readJsonFile, fsReadFile, h, Except.bind, jsonParse]

/-- Witness for C4 at concrete inputs: a missing file returns the default, an
injected I/O failure and a corrupt file raise errors, a good file returns its
contents. -/
theorem c4_read_default_and_errors_witness :
    readJsonFile none [] "data/x.json" (.str "dflt") = .ok (.str "dflt") ∧
    readJsonFile (some "EIO") [("a", .corrupt "not json")] "a" (.str "dflt") =
      .error (.ioErr "EIO") ∧
    readJsonFile none [("a", .corrupt "not json")] "a" (.str "dflt") =
      .error .parseErr ∧
    readJsonFile none [("b", .good (.num 3))] "b" (.str "dflt") =
      .ok (.num 3) :=
  ⟨(c4_read_default_and_errors [] "data/x.json" (.str "dflt")).1 rfl,
   (c4_read_default_and_errors [("a", .corrupt "not json")] "a"
      (.str "dflt")).2.1 "EIO",
   (c4_read_default_and_errors [("a", .corrupt "not json")] "a"
      (.str "dflt")).2.2.1 "not json" rfl,
   (c4_read_default_and_errors [("b", .good (.num 3))] "b"
      (.str "dflt")).2.2.2 (.num 3) rfl⟩

theorem getF_ensureKey_ne (doc dflt : JVal) (k k' : String) (h : k' ≠ k) :
    (ensureKey doc k dflt).getF k' = doc.getF k' := by
  unfold ensureKey
  split
  · rfl
  · exact getF_setF_ne doc k k' dflt h

/-! ## Claim C10: mutating operations are per-key frames -/

/-- **C10.** Every mutating repository operation on entity key `k` leaves the
value stored under any other key `k' ≠ k` unchanged, and clearing a key that
is not present leaves the whole document equal to what it was. -/
theorem c10_frame
    (now : Int) (hour : Nat) (localTime : String) (maxHistory maxItems : Nat)
    (doc data item ctx : JVal) (metadata : List (String × JVal)) (merge : Bool)
    (k k' role content contactName contactNumber relationship category
      subcategory : String) (h : k' ≠ k) :
    ((addMessageDoc now hour localTime maxHistory doc k role content
        metadata).2).getF k' = doc.getF k' ∧
    ((storeContactDoc now doc k contactName contactNumber
        relationship).2).getF k' = doc.getF k' ∧
    (storeEmotionalContextDoc now doc k ctx).getF k' = doc.getF k' ∧
    (clearMessagesForSenderDoc doc k).getF k' = doc.getF k' ∧
    ((updateMemoryDoc now doc k category data merge).2).getF k'
        = doc.getF k' ∧
    ((addToMemoryArrayDoc now doc k category subcategory item
        maxItems).2).getF k' = doc.getF k' ∧
    (clearUserMemoryDoc doc k).getF k' = doc.getF k' ∧
    (doc.hasF k = false →
      clearMessagesForSenderDoc doc k = doc ∧ clearUserMemoryDoc doc k = doc) := by
  refine ⟨?_, ?_, ?_, ?_, ?_, ?_, ?_,
    fun hnk => ⟨delF_eq_of_not_has doc k hnk, delF_eq_of_not_has doc k hnk⟩⟩
  · simp only [addMessageDoc]
    split
    · rfl
    · exact (getF_setF_ne _ _ _ _ h).trans (getF_ensureKey_ne doc _ k k' h)
  · exact (getF_setF_ne _ _ _ _ h).trans (getF_ensureKey_ne doc _ k k' h)
  · exact (getF_setF_ne _ _ _ _ h).trans (getF_ensureKey_ne doc _ k k' h)
  · exact getF_delF_ne doc k k' h
  · exact (getF_setF_ne _ _ _ _ h).trans (getF_ensureKey_ne doc _ k k' h)
  · exact (getF_setF_ne _ _ _ _ h).trans (getF_ensureKey_ne doc _ k k' h)
  · exact getF_delF_ne doc k k' h

/-- A concrete two-user chat/memory document for witnesses. -/
def sampleDoc : JVal := .obj [("u1", .arr [])]

/-- Witness for C10 at concrete inputs: operations on key `u2` leave key
`u1` untouched, and clearing the absent key `u2` is the identity. -/
theorem c10_frame_witness :
    ((addMessageDoc 0 6 "lt" 30 sampleDoc "u2" "user" "hi" []).2).getF "u1"
        = sampleDoc.getF "u1" ∧
    ((storeContactDoc 0 sampleDoc "u2" "Ann" "077" "friend").2).getF "u1"
        = sampleDoc.getF "u1" ∧
    (storeEmotionalContextDoc 0 sampleDoc "u2" (.str "calm")).getF "u1"
        = sampleDoc.getF "u1" ∧
    (clearMessagesForSenderDoc sampleDoc "u2").getF "u1"
        = sampleDoc.getF "u1" ∧
    ((updateMemoryDoc 0 sampleDoc "u2" "personalInfo" (.obj []) true).2).getF "u1"
        = sampleDoc.getF "u1" ∧
    ((addToMemoryArrayDoc 0 sampleDoc "u2" "lifeEvents" "recentEvents"
        (.str "x") 15).2).getF "u1" = sampleDoc.getF "u1" ∧
    (clearUserMemoryDoc sampleDoc "u2").getF "u1" = sampleDoc.getF "u1" ∧
    clearMessagesForSenderDoc sampleDoc "u2" = sampleDoc ∧
    clearUserMemoryDoc sampleDoc "u2" = sampleDoc := by
  have H := c10_frame 0 6 "lt" 30 15 sampleDoc (.obj []) (.str "x") (.str "calm")
    [] true "u2" "u1" "user" "hi" "Ann" "077" "friend" "personalInfo"
    "recentEvents" (by decide)
  exact ⟨H.1, H.2.1, H.2.2.1, H.2.2.2.1, H.2.2.2.2.1, H.2.2.2.2.2.1,
    H.2.2.2.2.2.2.1, (H.2.2.2.2.2.2.2 (by decide)).1,
    (H.2.2.2.2.2.2.2 (by decide)).2⟩

/-! ## Claim C1: error propagation out of repository operations

The claim fails on the code: `readChatHistory`/`readMemories` catch every
read failure (including a parse failure) and return `{}`, and
`storeEmotionalContext`'s catch block does not rethrow, so a write failure
there never reaches the caller.  `addMessage` (and the other rethrowing
operations) do propagate write failures after releasing the lock. -/

/-- **C1, counterexample.** On a corrupt store the underlying
`readJsonFile` raises a parse error, yet `readChatHistory` and
`readMemories` return the empty document instead of propagating it; and
with a failing write `storeEmotionalContext` still resolves successfully
with the store unchanged (the lock is released either way). -/
theorem c1_counterexample :
    readJsonFile none [(chatHistoryFile, .corrupt "nope")] chatHistoryFile
      (.obj []) = .error .parseErr ∧
    readChatHistory none [(chatHistoryFile, .corrupt "nope")] = .obj [] ∧
    readJsonFile none [(memoryFile, .corrupt "nope")] memoryFile
      (.obj []) = .error .parseErr ∧
    readMemories none [(memoryFile, .corrupt "nope")] = .obj [] ∧
    storeEmotionalContextRun none (some "EIO") [] [] 0 "u1" (.str "sad")
      = (.ok (), [], []) :=
  ⟨rfl, rfl, rfl, rfl, rfl⟩

set_option maxHeartbeats 1000000 in
/-- **C1, amended.** Read failures in `readChatHistory`/`readMemories` are
caught and replaced by the empty document; a write failure in
`storeEmotionalContext` is caught and the call resolves successfully with
the store unchanged; in both cases no error reaches the caller.  Write
failures in the five rethrowing operations — `addMessage`,
`clearMessagesForSender`, `updateMemory`, `addToMemoryArray`,
`clearUserMemory` — do propagate to the caller.  In every case the per-key
lock is released (final lock map equals the starting one). -/
theorem c1_amended
    (readIo : Option String) (fs : FS) (locks : List String) (m : String)
    (now : Int) (hour : Nat) (localTime : String) (maxHistory maxItems : Nat)
    (uid role content category subcategory : String) (ctx data item : JVal)
    (merge : Bool) (metadata : List (String × JVal)) :
    ((∃ e, readJsonFile readIo fs chatHistoryFile (.obj []) = .error e) →
      readChatHistory readIo fs = .obj []) ∧
    ((∃ e, readJsonFile readIo fs memoryFile (.obj []) = .error e) →
      readMemories readIo fs = .obj []) ∧
    storeEmotionalContextRun readIo (some m) fs locks now uid ctx
      = (.ok (), fs, locks) ∧
    (∀ msg doc1,
      addMessageDoc now hour localTime maxHistory (readChatHistory readIo fs)
          uid role content metadata = (some msg, doc1) →
      addMessageRun readIo (some m) fs locks now hour localTime maxHistory
          uid role content metadata = (.error (.ioErr m), fs, locks)) ∧
    clearMessagesForSenderRun readIo (some m) fs locks uid
      = (.error (.ioErr m), fs, locks) ∧
    updateMemoryRun readIo (some m) fs locks now uid category data merge
      = (.error (.ioErr m), fs, locks) ∧
    addToMemoryArrayRun readIo (some m) fs locks now uid category subcategory
        item maxItems
      = (.error (.ioErr m), fs, locks) ∧
    clearUserMemoryRun readIo (some m) fs locks uid
      = (.error (.ioErr m), fs, locks) := by
  refine ⟨fun ⟨e, he⟩ => ?_, fun ⟨e, he⟩ => ?_, ?_, fun msg doc1 hmd => ?_,
    ?_, ?_, ?_, ?_⟩
  · simp [readChatHistory, he]
  · simp [readMemories, he]
  · simp [storeEmotionalContextRun, writeChatHistory, writeJsonFile,
      fsWriteFile, Except.bind, releaseLock, acquireLockNow]
  · simp only [addMessageRun]
    rw [hmd]
    simp [writeChatHistory, writeJsonFile, fsWriteFile, Except.bind,
      releaseLock, acquireLockNow]
  · simp [clearMessagesForSenderRun, writeChatHistory, writeJsonFile,
      fsWriteFile, Except.bind, releaseLock, acquireLockNow]
  · simp [updateMemoryRun, writeMemories, writeJsonFile,
      fsWriteFile, Except.bind, releaseLock, acquireLockNow]
  · simp [addToMemoryArrayRun, writeMemories, writeJsonFile,
      fsWriteFile, Except.bind, releaseLock, acquireLockNow]
  · simp [clearUserMemoryRun, writeMemories, writeJsonFile,
      fsWriteFile, Except.bind, releaseLock, acquireLockNow]

/-- Witness for the amended C1 at concrete inputs: swallowed read failures,
a swallowed `storeEmotionalContext` write failure, and propagated write
failures from each of the five rethrowing operations, the lock released
every time. -/
theorem c1_amended_witness :
    readChatHistory none [(chatHistoryFile, .corrupt "nope")] = .obj [] ∧
    readMemories none [(memoryFile, .corrupt "nope")] = .obj [] ∧
    storeEmotionalContextRun none (some "EIO") [] [] 0 "u1" (.str "sad")
      = (.ok (), [], []) ∧
    addMessageRun none (some "EIO") [] [] 0 6 "lt" 30 "u1" "user" "hi" []
      = (.error (.ioErr "EIO"), [], []) ∧
    clearMessagesForSenderRun none (some "EIO") [] [] "u1"
      = (.error (.ioErr "EIO"), [], []) ∧
    updateMemoryRun none (some "EIO") [] [] 0 "u1" "personalInfo"
        (.obj []) true
      = (.error (.ioErr "EIO"), [], []) ∧
    addToMemoryArrayRun none (some "EIO") [] [] 0 "u1" "lifeEvents"
        "recentEvents" (.str "x") 15
      = (.error (.ioErr "EIO"), [], []) ∧
    clearUserMemoryRun none (some "EIO") [] [] "u1"
      = (.error (.ioErr "EIO"), [], []) :=
  ⟨(c1_amended none [(chatHistoryFile, .corrupt "nope")] [] "EIO" 0 6 "lt" 30
      15 "u1" "user" "hi" "personalInfo" "recentEvents" (.str "sad")
      (.obj []) (.str "x") true []).1 ⟨.parseErr, rfl⟩,
   (c1_amended none [(memoryFile, .corrupt "nope")] [] "EIO" 0 6 "lt" 30
      15 "u1" "user" "hi" "personalInfo" "recentEvents" (.str "sad")
      (.obj []) (.str "x") true []).2.1 ⟨.parseErr, rfl⟩,
   (c1_amended none [] [] "EIO" 0 6 "lt" 30 15 "u1" "user" "hi"
      "personalInfo" "recentEvents" (.str "sad") (.obj []) (.str "x")
      true []).2.2.1,
   (c1_amended none [] [] "EIO" 0 6 "lt" 30 15 "u1" "user" "hi"
      "personalInfo" "recentEvents" (.str "sad") (.obj []) (.str "x")
      true []).2.2.2.1
     (mkMessage 0 6 "lt" "user" "hi" [])
     (.obj [("u1", .arr [mkMessage 0 6 "lt" "user" "hi" []])]) rfl,
   (c1_amended none [] [] "EIO" 0 6 "lt" 30 15 "u1" "user" "hi"
      "personalInfo" "recentEvents" (.str "sad") (.obj []) (.str "x")
      true []).2.2.2.2.1,
   (c1_amended none [] [] "EIO" 0 6 "lt" 30 15 "u1" "user" "hi"
      "personalInfo" "recentEvents" (.str "sad") (.obj []) (.str "x")
      true []).2.2.2.2.2.1,
   (c1_amended none [] [] "EIO" 0 6 "lt" 30 15 "u1" "user" "hi"
      "personalInfo" "recentEvents" (.str "sad") (.obj []) (.str "x")
      true []).2.2.2.2.2.2.1,
   (c1_amended none [] [] "EIO" 0 6 "lt" 30 15 "u1" "user" "hi"
      "personalInfo" "recentEvents" (.str "sad") (.obj []) (.str "x")
      true []).2.2.2.2.2.2.2⟩

/-! ## Claim C6: FIFO eviction of capped arrays -/

theorem take_append_take {α : Type} (n : Nat) (c d : List α) :
    (c ++ d.take n).take n = (c ++ d).take n := by
  rw [List.take_append_eq_append_take, List.take_append_eq_append_take,
    List.take_take]
  have hm : min (n - c.length) n = n - c.length := by omega
  rw [hm]

theorem takeLast_eq {α : Type} (n : Nat) (L : List α) :
    takeLast n L = (L.reverse.take n).reverse := by
  show L.drop (L.length - n) = (L.reverse.take n).reverse
  rw [List.reverse_take, List.reverse_reverse, List.length_reverse]

theorem takeLast_append_right {α : Type} (n : Nat) (a b : List α)
    (h : n ≤ b.length) : takeLast n (a ++ b) = takeLast n b := by
  show (a ++ b).drop ((a ++ b).length - n) = b.drop (b.length - n)
  have he : (a ++ b).length - n = a.length + (b.length - n) := by
    simp only [List.length_append]
    omega
  rw [he, List.drop_append]

theorem unshiftTrimFront_eq (maxItems : Nat) (l : List JVal) (m : JVal) :
    unshiftTrimFront maxItems l m = (m :: l).take maxItems := by
  simp only [unshiftTrimFront]
  split
  · rfl
  · exact (List.take_of_length_le (by omega)).symm

theorem pushTrimEnd_eq (maxHistory : Nat) (l : List JVal) (m : JVal)
    (h : 1 ≤ maxHistory) :
    pushTrimEnd maxHistory l m = takeLast maxHistory (l ++ [m]) := by
  simp only [pushTrimEnd, takeLast]
  split
  · unfold sliceNeg
    rw [if_neg (by omega)]
  · rename_i hlen
    have h0 : (l ++ [m]).length - maxHistory = 0 := by omega
    rw [h0, List.drop_zero]

theorem foldl_unshiftTrimFront (maxItems : Nat) :
    ∀ (items l0 : List JVal),
      items.foldl (unshiftTrimFront maxItems) (l0.take maxItems)
        = (items.reverse ++ l0).take maxItems := by
  intro items
  induction items with
  | nil => intro l0; simp
  | cons i rest ih =>
    intro l0
    rw [List.foldl_cons, unshiftTrimFront_eq]
    have h1 : ((i :: l0.take maxItems)).take maxItems
        = ((i :: l0)).take maxItems := by
      have := take_append_take maxItems [i] l0
      simpa using this
    rw [h1, ih (i :: l0), List.reverse_cons, List.append_assoc]
    rfl

theorem foldl_pushTrimEnd (maxHistory : Nat) (h : 1 ≤ maxHistory) :
    ∀ (items l0 : List JVal),
      items.foldl (pushTrimEnd maxHistory) (takeLast maxHistory l0)
        = takeLast maxHistory (l0 ++ items) := by
  intro items
  induction items with
  | nil => intro l0; simp
  | cons i rest ih =>
    intro l0
    rw [List.foldl_cons, pushTrimEnd_eq _ _ _ h]
    have h1 : takeLast maxHistory (takeLast maxHistory l0 ++ [i])
        = takeLast maxHistory (l0 ++ [i]) := by
      rw [takeLast_eq maxHistory (takeLast maxHistory l0 ++ [i]),
        takeLast_eq maxHistory (l0 ++ [i]), List.reverse_append,
        List.reverse_append, takeLast_eq maxHistory l0,
        List.reverse_reverse, take_append_take]
    rw [h1, ih (l0 ++ [i]), List.append_assoc]
    rfl

/-- **C6.** After `M > maxItems` insertions into a capped array, the array
holds exactly the most recent `maxItems` insertions, evicting only the
oldest: `addToMemoryArray`'s unshift-and-trim step keeps the newest at the
front (the result is the reverse of the last `maxItems` items inserted), and
`addMessage`'s push-and-trim step keeps the newest at the end (the result is
the last `maxItems` items inserted in order) — for any starting array. -/
theorem c6_trim_invariant (maxItems : Nat) (items l0 : List JVal)
    (h1 : 1 ≤ maxItems) (h2 : maxItems < items.length) :
    items.foldl (unshiftTrimFront maxItems) l0
        = (takeLast maxItems items).reverse ∧
    items.foldl (pushTrimEnd maxItems) l0 = takeLast maxItems items := by
  obtain ⟨i, rest, rfl⟩ : ∃ i rest, items = i :: rest := by
    cases items with
    | nil => simp at h2
    | cons i rest => exact ⟨i, rest, rfl⟩
  constructor
  · rw [List.foldl_cons, unshiftTrimFront_eq]
    rw [foldl_unshiftTrimFront maxItems rest (i :: l0)]
    have hassoc : rest.reverse ++ (i :: l0) = (i :: rest).reverse ++ l0 := by
      rw [List.reverse_cons, List.append_assoc]
      rfl
    rw [hassoc,
      List.take_append_of_le_length (by simpa using Nat.le_of_lt h2),
      takeLast_eq, List.reverse_reverse]
  · rw [List.foldl_cons, pushTrimEnd_eq _ _ _ h1]
    rw [foldl_pushTrimEnd maxItems h1 rest (l0 ++ [i]), List.append_assoc]
    exact takeLast_append_right maxItems l0 (i :: rest) (Nat.le_of_lt h2)

/-- Witness for C6: inserting three items into arrays capped at 2 keeps the
two most recent, newest-first for the memory side and oldest-evicted for the
chat side. -/
theorem c6_trim_invariant_witness :
    [JVal.num 1, .num 2, .num 3].foldl (unshiftTrimFront 2) []
        = (takeLast 2 [JVal.num 1, .num 2, .num 3]).reverse ∧
    [JVal.num 1, .num 2, .num 3].foldl (pushTrimEnd 2) []
        = takeLast 2 [JVal.num 1, .num 2, .num 3] :=
  c6_trim_invariant 2 [JVal.num 1, .num 2, .num 3] [] (by decide) (by decide)

/-! ## Claim C5: addMessage deduplication -/

theorem jsEq_str_iff (x : JVal) (c : String) :
    jsEq x (.str c) = true ↔ x = .str c := by
  cases x <;> simp [jsEq]

theorem isDuplicateIn_iff (now : Int) (role content : String)
    (hist : List JVal)
    (hts : ∀ m ∈ hist, ∀ t : Int, m.getF "timestamp" = .num t → t ≤ now) :
    (isDuplicateIn now role content (sliceNeg 5 hist) = true ↔
      ∃ m ∈ takeLast 5 hist, m.getF "content" = .str content ∧
        m.getF "role" = .str role ∧
        ∃ t : Int, m.getF "timestamp" = .num t ∧
          0 ≤ now - t ∧ now - t < 5000) := by
  have hsl : sliceNeg 5 hist = takeLast 5 hist := rfl
  rw [hsl, isDuplicateIn, List.any_eq_true]
  constructor
  · rintro ⟨m, hm, hf⟩
    simp only [Bool.and_eq_true] at hf
    obtain ⟨⟨hc, hr⟩, hmt⟩ := hf
    refine ⟨m, hm, (jsEq_str_iff _ _).mp hc, (jsEq_str_iff _ _).mp hr, ?_⟩
    have hmem : m ∈ hist := List.drop_subset _ hist hm
    cases hx : m.getF "timestamp" with
    | num t =>
      rw [hx] at hmt
      simp only [decide_eq_true_eq] at hmt
      have := hts m hmem t hx
      exact ⟨t, rfl, by omega, hmt⟩
    | undefined => rw [hx] at hmt; simp at hmt
    | null => rw [hx] at hmt; simp at hmt
    | bool b => rw [hx] at hmt; simp at hmt
    | str s => rw [hx] at hmt; simp at hmt
    | arr xs => rw [hx] at hmt; simp at hmt
    | obj fs => rw [hx] at hmt; simp at hmt
  · rintro ⟨m, hm, hc, hr, t, hmt, _h0, h5⟩
    refine ⟨m, hm, ?_⟩
    simp only [Bool.and_eq_true]
    refine ⟨⟨(jsEq_str_iff _ _).mpr hc, (jsEq_str_iff _ _).mpr hr⟩, ?_⟩
    rw [hmt]
    simpa using h5

set_option maxHeartbeats 1000000 in
/-- **C5.** `addMessage(K, role, content, metadata)` returns the `null`
result and leaves the stored document unchanged exactly when one of the last
5 stored entries for `K` carries the same role and content with a timestamp
within 5 seconds of `now` and `metadata.forceDuplicate` is not set;
otherwise it appends exactly one new entry (the message literal, trimmed
into the capped history) and returns it.  The hypothesis `hts` records that
stored timestamps never lie in the future of the clock, which is how every
document produced by the repository is stamped. -/
theorem c5_dedup (now : Int) (hour : Nat) (localTime : String)
    (maxHistory : Nat) (doc : JVal) (K role content : String)
    (metadata : List (String × JVal)) (hist : List JVal)
    (hdoc : doc.getF K = .arr hist)
    (hts : ∀ m ∈ hist, ∀ t : Int, m.getF "timestamp" = .num t → t ≤ now) :
    ((∃ m ∈ takeLast 5 hist, m.getF "content" = .str content ∧
        m.getF "role" = .str role ∧
        ∃ t : Int, m.getF "timestamp" = .num t ∧
          0 ≤ now - t ∧ now - t < 5000) ∧
      ¬((JVal.obj metadata).getF "forceDuplicate").truthy = true →
      addMessageDoc now hour localTime maxHistory doc K role content metadata
        = (none, doc)) ∧
    ((¬(∃ m ∈ takeLast 5 hist, m.getF "content" = .str content ∧
        m.getF "role" = .str role ∧
        ∃ t : Int, m.getF "timestamp" = .num t ∧
          0 ≤ now - t ∧ now - t < 5000) ∨
      ((JVal.obj metadata).getF "forceDuplicate").truthy = true) →
      addMessageDoc now hour localTime maxHistory doc K role content metadata
        = (some (mkMessage now hour localTime role content metadata),
           doc.setF K (.arr (pushTrimEnd maxHistory hist
             (mkMessage now hour localTime role content metadata))))) := by
  have hens : ensureKey doc K (.arr []) = doc := by
    simp [ensureKey, hdoc, JVal.truthy]
  have hhist : asArr (doc.getF K) = hist := by rw [hdoc]; rfl
  have hiff := isDuplicateIn_iff now role content hist hts
  constructor
  · rintro ⟨hdup, hforce⟩
    have hd : isDuplicateIn now role content (sliceNeg 5 hist) = true :=
      hiff.mpr hdup
    have hf : ((JVal.obj metadata).getF "forceDuplicate").truthy = false :=
      Bool.not_eq_true _ ▸ Bool.of_not_eq_true hforce
    simp only [addMessageDoc, hens, hhist, hd, hf]
    rfl
  · intro h
    have hcond : (isDuplicateIn now role content (sliceNeg 5 hist) &&
        !((JVal.obj metadata).getF "forceDuplicate").truthy) = false := by
      rcases h with h | h
      · have : isDuplicateIn now role content (sliceNeg 5 hist) = false := by
          rcases hb : isDuplicateIn now role content (sliceNeg 5 hist) with _ | _
          · rfl
          · exact absurd (hiff.mp hb) h
        simp [this]
      · simp [h]
    simp only [addMessageDoc, hens, hhist, hcond]
    rfl

/-- Witness for C5: a duplicate within 5 seconds is dropped without a write,
and a fresh message is appended and returned. -/
theorem c5_dedup_witness :
    addMessageDoc 6000 6 "lt" 30
        (.obj [("u1", .arr [.obj [("role", .str "user"),
          ("content", .str "hi"), ("timestamp", .num 2000)]])])
        "u1" "user" "hi" []
      = (none, .obj [("u1", .arr [.obj [("role", .str "user"),
          ("content", .str "hi"), ("timestamp", .num 2000)]])]) ∧
    addMessageDoc 6000 6 "lt" 30 (.obj [("u1", .arr [])]) "u1" "user" "hi" []
      = (some (mkMessage 6000 6 "lt" "user" "hi" []),
         (JVal.obj [("u1", .arr [])]).setF "u1"
           (.arr (pushTrimEnd 30 [] (mkMessage 6000 6 "lt" "user" "hi" [])))) := by
  constructor
  · exact (c5_dedup 6000 6 "lt" 30
      (.obj [("u1", .arr [.obj [("role", .str "user"),
        ("content", .str "hi"), ("timestamp", .num 2000)]])])
      "u1" "user" "hi" []
      [.obj [("role", .str "user"), ("content", .str "hi"),
        ("timestamp", .num 2000)]] rfl
      (by

        rintro m hm t hmt
        simp only [List.mem_singleton] at hm
        subst hm
        have h2 : JVal.num 2000 = JVal.num t := hmt
        injection h2 with h2
        omega)).1
      ⟨⟨.obj [("role", .str "user"), ("content", .str "hi"),
          ("timestamp", .num 2000)], by simp [takeLast],
        rfl, rfl, 2000, rfl, by norm_num, by norm_num⟩,
       by simp [JVal.getF, lookupA, JVal.truthy]⟩
  · exact (c5_dedup 6000 6 "lt" 30 (.obj [("u1", .arr [])]) "u1" "user" "hi"
      [] [] rfl (by rintro m hm; simp at hm)).2
      (.inl (by rintro ⟨m, hm, _⟩; simp [takeLast] at hm))

/-! ## Claim C9: generateContent retry and exhaustion -/

theorem generateContentLoop_all_fail (oracle : Nat → AttemptOutcome)
    (R : Nat) :
    ∀ (rem a : Nat) (le : Option String), a + rem = R → 1 ≤ rem →
      (∀ i, a ≤ i → i < R → (attemptFailureMsg (oracle i)).isSome = true) →
      generateContentLoop oracle R a rem le
        = (.error (exhaustedMessage R (attemptFailureMsg (oracle (R - 1)))),
           R) := by
  intro rem
  induction rem with
  | zero => intro a le ha h1 _; omega
  | succ r ih =>
    intro a le ha _ hfail
    have hfa := hfail a (Nat.le_refl a) (by omega)
    have hstep : ∃ msg, generateContentLoop oracle R a (r + 1) le
        = generateContentLoop oracle R (a + 1) r (some msg) ∧
        attemptFailureMsg (oracle a) = some msg := by
      cases ho : oracle a with
      | respondedWith t =>
        by_cases he : jsTrim t = ""
        · exact ⟨"Empty response from Gemini API",
            by simp [generateContentLoop, ho, he],
            by simp [attemptFailureMsg, he]⟩
        · rw [ho] at hfa
          simp [attemptFailureMsg, he] at hfa
      | threwWith m =>
        exact ⟨m, by simp [generateContentLoop, ho],
          by simp [attemptFailureMsg]⟩
    obtain ⟨msg, hs, hmsg⟩ := hstep
    rw [hs]
    cases r with
    | zero =>
      have haR : a + 1 = R := by omega
      have hR1 : R - 1 = a := by omega
      simp only [generateContentLoop]
      rw [hR1, hmsg, haR]
    | succ r' =>
      exact ih (a + 1) (some msg) (by omega) (by omega)
        (fun i hi1 hi2 => hfail i (by omega) hi2)

theorem generateContentLoop_success (oracle : Nat → AttemptOutcome)
    (R k : Nat) (t : String) (hk1 : 1 ≤ k) (hkR : k ≤ R)
    (hsucc : oracle (k - 1) = .respondedWith t) (hne : ¬ jsTrim t = "") :
    ∀ (rem a : Nat) (le : Option String), a + rem = R → a ≤ k - 1 →
      (∀ i, a ≤ i → i < k - 1 →
        (attemptFailureMsg (oracle i)).isSome = true) →
      generateContentLoop oracle R a rem le = (.ok (jsTrim t), k) := by
  intro rem
  induction rem with
  | zero => intro a le ha hak _; omega
  | succ r ih =>
    intro a le ha hak hfail
    by_cases hae : a = k - 1
    · subst hae
      simp only [generateContentLoop, hsucc]
      rw [if_neg hne]
      have hk : (k - 1) + 1 = k := by omega
      rw [hk]
    · have hfa := hfail a (Nat.le_refl a) (by omega)
      have hstep : ∃ msg, generateContentLoop oracle R a (r + 1) le
          = generateContentLoop oracle R (a + 1) r (some msg) := by
        cases ho : oracle a with
        | respondedWith t' =>
          by_cases he : jsTrim t' = ""
          · exact ⟨"Empty response from Gemini API",
              by simp [generateContentLoop, ho, he]⟩
          · rw [ho] at hfa
            simp [attemptFailureMsg, he] at hfa
        | threwWith m =>
          exact ⟨m, by simp [generateContentLoop, ho]⟩
      obtain ⟨msg, hs⟩ := hstep
      rw [hs]
      exact ih (a + 1) (some msg) (by omega) (by omega)
        (fun i hi1 hi2 => hfail i (by omega) hi2)

/-- **C9.** With `maxRetries = R ≥ 1`: if every attempt fails (an exception,
or a response that trims to the empty string), `generateContent` makes
exactly `R` attempts and raises the terminal error carrying the last
attempt's error message; if the k-th attempt (k ≤ R) is the first to return
a non-empty response after k−1 failures, it returns the trimmed text after
exactly `k` attempts. -/
theorem c9_retry_exhaustion (oracle : Nat → AttemptOutcome) (R : Nat)
    (hR : 1 ≤ R) :
    ((∀ i, i < R → (attemptFailureMsg (oracle i)).isSome = true) →
      generateContent oracle R
        = (.error (exhaustedMessage R (attemptFailureMsg (oracle (R - 1)))),
           R)) ∧
    (∀ k t, 1 ≤ k → k ≤ R → oracle (k - 1) = .respondedWith t →
      jsTrim t ≠ "" →
      (∀ i, i < k - 1 → (attemptFailureMsg (oracle i)).isSome = true) →
      generateContent oracle R = (.ok (jsTrim t), k)) := by
  constructor
  · intro hfail
    exact generateContentLoop_all_fail oracle R R 0 none (by omega) hR
      (fun i _ hi2 => hfail i hi2)
  · intro k t hk1 hkR hsucc hne hfail
    exact generateContentLoop_success oracle R k t hk1 hkR hsucc hne R 0 none
      (by omega) (by omega) (fun i _ hi2 => hfail i hi2)

/-- Witness for C9: two attempts that both throw exhaust after exactly 2
attempts with the last error's message; a first attempt returning non-empty
text succeeds after exactly 1 attempt with the trimmed text. -/
theorem c9_retry_exhaustion_witness :
    generateContent (fun _ => .threwWith "boom") 2
      = (.error (exhaustedMessage 2
          (attemptFailureMsg (.threwWith "boom"))), 2) ∧
    generateContent (fun _ => .respondedWith " hi ") 3
      = (.ok (jsTrim " hi "), 1) :=
  ⟨(c9_retry_exhaustion (fun _ => .threwWith "boom") 2 (by decide)).1
      (fun i _ => rfl),
   (c9_retry_exhaustion (fun _ => .respondedWith " hi ") 3 (by decide)).2
      1 " hi " (by decide) (by decide) rfl (by decide)
      (fun i hi => absurd hi (by omega))⟩

/-! ## Claim C8: credential selection -/

/-- The claim's selection property: `r` belongs to `ks`, has minimal usage
there, and is the lowest index among the minima. -/
def isFirstMin (usage : List (Nat × Nat)) (ks : List Nat) (r : Nat) : Prop :=
  r ∈ ks ∧ (∀ j ∈ ks, usageOf usage r ≤ usageOf usage j) ∧
  (∀ j ∈ ks, usageOf usage j = usageOf usage r → r ≤ j)

theorem foldl_least_spec (usg : Nat → Nat) :
    ∀ (ks : List Nat) (b : Nat), (∀ j ∈ ks, b < j) → ks.Pairwise (· < ·) →
      ((ks.foldl (fun acc k => if usg k < acc.2 then (k, usg k) else acc)
          (b, usg b)).2
        = usg (ks.foldl (fun acc k => if usg k < acc.2 then (k, usg k) else acc)
          (b, usg b)).1 ∧
      ((ks.foldl (fun acc k => if usg k < acc.2 then (k, usg k) else acc)
          (b, usg b)).1 = b ∨
        (ks.foldl (fun acc k => if usg k < acc.2 then (k, usg k) else acc)
          (b, usg b)).1 ∈ ks) ∧
      usg (ks.foldl (fun acc k => if usg k < acc.2 then (k, usg k) else acc)
          (b, usg b)).1 ≤ usg b ∧
      (∀ j ∈ ks,
        usg (ks.foldl (fun acc k => if usg k < acc.2 then (k, usg k) else acc)
          (b, usg b)).1 ≤ usg j) ∧
      (usg (ks.foldl (fun acc k => if usg k < acc.2 then (k, usg k) else acc)
          (b, usg b)).1 = usg b →
        (ks.foldl (fun acc k => if usg k < acc.2 then (k, usg k) else acc)
          (b, usg b)).1 = b) ∧
      (∀ j ∈ ks,
        usg (ks.foldl (fun acc k => if usg k < acc.2 then (k, usg k) else acc)
          (b, usg b)).1 = usg j →
        (ks.foldl (fun acc k => if usg k < acc.2 then (k, usg k) else acc)
          (b, usg b)).1 ≤ j)) := by
  intro ks
  induction ks with
  | nil =>
    intro b _ _
    exact ⟨rfl, Or.inl rfl, Nat.le_refl _, by simp, fun _ => rfl, by simp⟩
  | cons k rest ih =>
    intro b hb hpw
    obtain ⟨hkrest, hpw2⟩ := List.pairwise_cons.mp hpw
    have hbk : b < k := hb k (List.mem_cons_self k rest)
    have hbrest : ∀ j ∈ rest, b < j :=
      fun j hj => hb j (List.mem_cons_of_mem k hj)
    rw [List.foldl_cons]
    by_cases hlt : usg k < usg b
    · rw [if_pos hlt]
      obtain ⟨e1, e2, e3, e4, e5, e6⟩ := ih k hkrest hpw2
      refine ⟨e1, ?_, ?_, ?_, ?_, ?_⟩
      · rcases e2 with e2 | e2
        · exact Or.inr (by rw [e2]; exact List.mem_cons_self k rest)
        · exact Or.inr (List.mem_cons_of_mem k e2)
      · omega
      · intro j hj
        rcases List.mem_cons.mp hj with rfl | hj
        · exact e3
        · exact e4 j hj
      · intro he
        omega
      · intro j hj he
        rcases List.mem_cons.mp hj with rfl | hj
        · exact Nat.le_of_eq (e5 he)
        · exact e6 j hj he
    · rw [if_neg hlt]
      obtain ⟨e1, e2, e3, e4, e5, e6⟩ := ih b hbrest hpw2
      refine ⟨e1, ?_, e3, ?_, e5, ?_⟩
      · rcases e2 with e2 | e2
        · exact Or.inl e2
        · exact Or.inr (List.mem_cons_of_mem k e2)
      · intro j hj
        rcases List.mem_cons.mp hj with rfl | hj
        · omega
        · exact e4 j hj
      · intro j hj he
        rcases List.mem_cons.mp hj with rfl | hj
        · have he2 : usg (rest.foldl
              (fun acc k => if usg k < acc.2 then (k, usg k) else acc)
              (b, usg b)).1 = usg b := by omega
          rw [e5 he2]
          exact Nat.le_of_lt hbk
        · exact e6 j hj he

theorem getLeastUsedKey_spec (p : GeminiPool) (avail : Option (List Nat))
    (hpw : (avail.getD p.clients).Pairwise (· < ·))
    (hne : avail.getD p.clients ≠ []) :
    ∃ r, getLeastUsedKey p avail = some r ∧
      isFirstMin p.keyUsageCount (avail.getD p.clients) r := by
  obtain ⟨k0, rest, hks⟩ : ∃ k0 rest, avail.getD p.clients = k0 :: rest := by
    cases h : avail.getD p.clients with
    | nil => exact absurd h hne
    | cons a l => exact ⟨a, l, rfl⟩
  rw [hks] at hpw
  obtain ⟨hkrest, hpw2⟩ := List.pairwise_cons.mp hpw
  obtain ⟨e1, e2, e3, e4, e5, e6⟩ :=
    foldl_least_spec (usageOf p.keyUsageCount) rest k0 hkrest hpw2
  refine ⟨(rest.foldl (fun acc k =>
      if usageOf p.keyUsageCount k < acc.2 then (k, usageOf p.keyUsageCount k)
      else acc) (k0, usageOf p.keyUsageCount k0)).1, ?_, ?_, ?_, ?_⟩
  · simp only [getLeastUsedKey]
    rw [hks]
    simp [lt_self_iff_false]
  · rw [hks]
    rcases e2 with e2 | e2
    · rw [e2]
      exact List.mem_cons_self k0 rest
    · exact List.mem_cons_of_mem k0 e2
  · rw [hks]
    intro j hj
    rcases List.mem_cons.mp hj with rfl | hj
    · exact e3
    · exact e4 j hj
  · rw [hks]
    intro j hj he
    rcases List.mem_cons.mp hj with rfl | hj
    · exact Nat.le_of_eq (e5 he.symm)
    · exact e6 j hj he.symm

/-- **C8.** Credential selection always returns some index: when a
non-quarantined credential exists, the least-used non-quarantined one with
ties broken by lowest index, leaving the pool unchanged; when every
credential is quarantined, it clears all quarantine flags and selects the
least-used credential over the whole set (ties again to the lowest index).
The hypotheses record the constructor's invariants: key indices are
strictly increasing and at least one client was initialized. -/
theorem c8_credential_selection (p : GeminiPool)
    (hs : p.clients.Pairwise (· < ·)) (hne : p.clients ≠ []) :
    ∃ r, (getNextKeyIndex p).1 = some r ∧
      ((p.clients.filter (fun i => !(p.failedKeys.contains i))).isEmpty
          = true →
        (getNextKeyIndex p).2 = { p with failedKeys := [] } ∧
        isFirstMin p.keyUsageCount p.clients r) ∧
      ((p.clients.filter (fun i => !(p.failedKeys.contains i))).isEmpty
          = false →
        (getNextKeyIndex p).2 = p ∧
        isFirstMin p.keyUsageCount
          (p.clients.filter (fun i => !(p.failedKeys.contains i))) r) := by
  cases hav : (p.clients.filter (fun i => !(p.failedKeys.contains i))).isEmpty
  case true =>
    obtain ⟨r, hr, hmin⟩ :=
      getLeastUsedKey_spec { p with failedKeys := [] } none hs hne
    have hgn : getNextKeyIndex p =
        (getLeastUsedKey { p with failedKeys := [] } none,
         { p with failedKeys := [] }) := by
      simp only [getNextKeyIndex]
      rw [hav]
      simp
    exact ⟨r, by rw [hgn]; exact hr, fun _ => ⟨by rw [hgn], hmin⟩,
      fun hf => Bool.noConfusion hf⟩
  case false =>
    have hne2 : p.clients.filter (fun i => !(p.failedKeys.contains i)) ≠ [] := by
      intro h
      rw [h] at hav
      simp at hav
    have hpwf : (p.clients.filter
        (fun i => !(p.failedKeys.contains i))).Pairwise (· < ·) :=
      hs.filter _
    obtain ⟨r, hr, hmin⟩ := getLeastUsedKey_spec p
      (some (p.clients.filter (fun i => !(p.failedKeys.contains i))))
      hpwf hne2
    have hgn : getNextKeyIndex p =
        (getLeastUsedKey p
          (some (p.clients.filter (fun i => !(p.failedKeys.contains i)))),
         p) := by
      simp only [getNextKeyIndex]
      rw [hav]
      simp
    exact ⟨r, by rw [hgn]; exact hr, fun ht => Bool.noConfusion ht,
      fun _ => ⟨by rw [hgn], hmin⟩⟩

/-- Witness for C8 at two concrete pools: one with a quarantined credential
(selection over the remaining ones) and one with every credential
quarantined (reset then selection over the whole set). -/
theorem c8_credential_selection_witness :
    (∃ r, (getNextKeyIndex ⟨[0, 1, 2], [1], [(0, 5), (1, 0), (2, 3)]⟩).1
        = some r ∧
      ((([0, 1, 2] : List Nat).filter
          (fun i => !(([1] : List Nat).contains i))).isEmpty = true →
        (getNextKeyIndex ⟨[0, 1, 2], [1], [(0, 5), (1, 0), (2, 3)]⟩).2
          = { (⟨[0, 1, 2], [1], [(0, 5), (1, 0), (2, 3)]⟩ : GeminiPool) with
              failedKeys := [] } ∧
        isFirstMin [(0, 5), (1, 0), (2, 3)] [0, 1, 2] r) ∧
      ((([0, 1, 2] : List Nat).filter
          (fun i => !(([1] : List Nat).contains i))).isEmpty = false →
        (getNextKeyIndex ⟨[0, 1, 2], [1], [(0, 5), (1, 0), (2, 3)]⟩).2
          = ⟨[0, 1, 2], [1], [(0, 5), (1, 0), (2, 3)]⟩ ∧
        isFirstMin [(0, 5), (1, 0), (2, 3)]
          (([0, 1, 2] : List Nat).filter
            (fun i => !(([1] : List Nat).contains i))) r)) ∧
    (∃ r, (getNextKeyIndex ⟨[0, 1], [0, 1], [(0, 4), (1, 4)]⟩).1
        = some r ∧
      ((([0, 1] : List Nat).filter
          (fun i => !(([0, 1] : List Nat).contains i))).isEmpty = true →
        (getNextKeyIndex ⟨[0, 1], [0, 1], [(0, 4), (1, 4)]⟩).2
          = { (⟨[0, 1], [0, 1], [(0, 4), (1, 4)]⟩ : GeminiPool) with
              failedKeys := [] } ∧
        isFirstMin [(0, 4), (1, 4)] [0, 1] r) ∧
      ((([0, 1] : List Nat).filter
          (fun i => !(([0, 1] : List Nat).contains i))).isEmpty = false →
        (getNextKeyIndex ⟨[0, 1], [0, 1], [(0, 4), (1, 4)]⟩).2
          = ⟨[0, 1], [0, 1], [(0, 4), (1, 4)]⟩ ∧
        isFirstMin [(0, 4), (1, 4)]
          (([0, 1] : List Nat).filter
            (fun i => !(([0, 1] : List Nat).contains i))) r)) :=
  ⟨c8_credential_selection ⟨[0, 1, 2], [1], [(0, 5), (1, 0), (2, 3)]⟩
      (by decide) (by decide),
   c8_credential_selection ⟨[0, 1], [0, 1], [(0, 4), (1, 4)]⟩
      (by decide) (by decide)⟩

/-! ## Claim C7: lock-manager invariants -/

/-- The inductive invariant of the lock-manager model: at most one holder
per key, the lock map is exactly the set of held keys, and it has no
duplicates. -/
def LMInv {n : Nat} (s : LMState n) : Prop :=
  (∀ (k : String) (i j : Fin n),
    s.procs i = .holding k → s.procs j = .holding k → i = j) ∧
  (∀ k : String, k ∈ s.locks ↔ ∃ i, s.procs i = .holding k) ∧
  s.locks.Nodup

theorem lmInv_init (n : Nat) : LMInv (lmInit n) := by
  refine ⟨fun k i j hi => ?_, fun k => ?_, by simp [lmInit]⟩
  · simp [lmInit] at hi
  · simp [lmInit]

theorem lmInv_step {n : Nat} {s s' : LMState n} (hstep : LMStep s s')
    (hinv : LMInv s) : LMInv s' := by
  obtain ⟨hmut, hlk, hnd⟩ := hinv
  cases hstep with
  | want i k hidle =>
    refine ⟨fun k' a b ha hb => ?_, fun k' => ?_, hnd⟩
    · simp only [Function.update_apply] at ha hb
      split at ha
      · exact absurd ha (by simp)
      · split at hb
        · exact absurd hb (by simp)
        · exact hmut k' a b ha hb
    · show k' ∈ s.locks ↔ _
      rw [hlk k']
      constructor
      · rintro ⟨a, ha⟩
        refine ⟨a, ?_⟩
        simp only [Function.update_apply]
        split
        · rename_i hai
          rw [hai, hidle] at ha
          exact absurd ha (by simp)
        · exact ha
      · rintro ⟨a, ha⟩
        simp only [Function.update_apply] at ha
        split at ha
        · exact absurd ha (by simp)
        · exact ⟨a, ha⟩
  | acquire i k hwait hfree =>
    refine ⟨fun k' a b ha hb => ?_, fun k' => ?_, ?_⟩
    · simp only [Function.update_apply] at ha hb
      split at ha
      · split at hb
        · rename_i h1 h2
          rw [h1, h2]
        · rename_i h1 h2
          have hkk : k' = k := by
            cases ha
            rfl
          subst hkk
          exact absurd ((hlk k').mpr ⟨b, hb⟩) hfree
      · split at hb
        · rename_i h1 h2
          have hkk : k' = k := by
            cases hb
            rfl
          subst hkk
          exact absurd ((hlk k').mpr ⟨a, ha⟩) hfree
        · exact hmut k' a b ha hb
    · show k' ∈ k :: s.locks ↔ _
      rw [List.mem_cons]
      constructor
      · rintro (rfl | hm)
        · refine ⟨i, ?_⟩
          simp [Function.update_apply]
        · obtain ⟨a, ha⟩ := (hlk k').mp hm
          have hai : a ≠ i := by
            intro he
            rw [he, hwait] at ha
            exact absurd ha (by simp)
          refine ⟨a, ?_⟩
          simp only [Function.update_apply, if_neg hai]
          exact ha
      · rintro ⟨a, ha⟩
        simp only [Function.update_apply] at ha
        split at ha
        · cases ha
          exact Or.inl rfl
        · exact Or.inr ((hlk k').mpr ⟨a, ha⟩)
    · exact List.Nodup.cons hfree hnd
  | release i k hhold =>
    refine ⟨fun k' a b ha hb => ?_, fun k' => ?_, hnd.erase k⟩
    · simp only [Function.update_apply] at ha hb
      split at ha
      · exact absurd ha (by simp)
      · split at hb
        · exact absurd hb (by simp)
        · exact hmut k' a b ha hb
    · show k' ∈ s.locks.erase k ↔ _
      rw [hnd.mem_erase_iff]
      constructor
      · rintro ⟨hne, hm⟩
        obtain ⟨a, ha⟩ := (hlk k').mp hm
        have hai : a ≠ i := by
          intro he
          rw [he, hhold] at ha
          cases ha
          exact hne rfl
        refine ⟨a, ?_⟩
        simp only [Function.update_apply, if_neg hai]
        exact ha
      · rintro ⟨a, ha⟩
        simp only [Function.update_apply] at ha
        split at ha
        · exact absurd ha (by simp)
        · rename_i hai
          refine ⟨?_, (hlk k').mpr ⟨a, ha⟩⟩
          intro he
          subst he
          exact hai (hmut k' a i ha hhold)

theorem lmInv_reaches {n : Nat} {s : LMState n}
    (h : LMReaches (lmInit n) s) : LMInv s := by
  induction h with
  | refl => exact lmInv_init n
  | tail _ hstep ih => exact lmInv_step hstep ih

/-- **C7.** In every reachable state of the lock-manager model: each key has
at most one holder; a client waiting on key `k` can acquire it whenever no
client holds `k` — holders of other keys never block it; and releasing a key
that is not held leaves the lock map unchanged. -/
theorem c7_lock_invariants (n : Nat) (s : LMState n)
    (hreach : LMReaches (lmInit n) s) :
    (∀ (k : String) (i j : Fin n),
      s.procs i = .holding k → s.procs j = .holding k → i = j) ∧
    (∀ (i : Fin n) (k : String), s.procs i = .waiting k →
      (∀ j, s.procs j ≠ .holding k) →
      LMStep s { locks := acquireLockNow k s.locks,
                 procs := Function.update s.procs i (.holding k) }) ∧
    (∀ (k : String) (locks : List String), k ∉ locks →
      releaseLock k locks = locks) := by
  obtain ⟨hmut, hlk, _⟩ := lmInv_reaches hreach
  refine ⟨hmut, fun i k hw hnh => ?_, fun k locks hk => List.erase_of_not_mem hk⟩
  have hfree : k ∉ s.locks := by
    intro hm
    obtain ⟨a, ha⟩ := (hlk k).mp hm
    exact hnh a ha
  exact LMStep.acquire s i k hw hfree

/-- Concrete states for the C7 witness: client 0 acquires `"a"`, then
client 1 starts waiting on `"b"`. -/
def lmS1 : LMState 2 :=
  { locks := [], procs := Function.update (lmInit 2).procs 0 (.waiting "a") }

def lmS2 : LMState 2 :=
  { locks := acquireLockNow "a" lmS1.locks,
    procs := Function.update lmS1.procs 0 (.holding "a") }

def lmS3 : LMState 2 :=
  { locks := lmS2.locks, procs := Function.update lmS2.procs 1 (.waiting "b") }

theorem lmReaches_lmS3 : LMReaches (lmInit 2) lmS3 :=
  Relation.ReflTransGen.tail
    (Relation.ReflTransGen.tail
      (Relation.ReflTransGen.tail Relation.ReflTransGen.refl
        (LMStep.want (lmInit 2) 0 "a" rfl))
      (LMStep.acquire lmS1 0 "a" (by simp [lmS1, lmInit]) (by simp [lmS1])))
    (LMStep.want lmS2 1 "b" (by simp [lmS2, lmS1, lmInit]))

/-- Witness for C7 in the concrete reachable state `lmS3`: at most one
holder per key, client 1 waiting on `"b"` can acquire it although `"a"` is
held by client 0, and releasing the unheld `"c"` is a no-op. -/
theorem c7_lock_invariants_witness :
    (∀ (k : String) (i j : Fin 2),
      lmS3.procs i = .holding k → lmS3.procs j = .holding k → i = j) ∧
    LMStep lmS3 { locks := acquireLockNow "b" lmS3.locks,
                  procs := Function.update lmS3.procs 1 (.holding "b") } ∧
    releaseLock "c" ["a"] = ["a"] := by
  have H := c7_lock_invariants 2 lmS3 lmReaches_lmS3
  exact ⟨H.1, H.2.1 1 "b" (by simp [lmS3, lmS2, lmS1, lmInit]) (by decide),
    H.2.2 "c" ["a"] (by decide)⟩

/-! ## Claim C2: cross-key lost update, same-key serialization -/

theorem getF_setF_self_obj (fs : List (String × JVal)) (k : String)
    (v : JVal) : ((JVal.obj fs).setF k v).getF k = v := by
  simp [JVal.setF, JVal.getF, lookupA_setA_self]

theorem appendAt_getF (fs : List (String × JVal)) (k : String) (v : JVal) :
    asArr ((appendAt k v (.obj fs)).getF k)
      = asArr ((JVal.obj fs).getF k) ++ [v] := by
  rw [appendAt, getF_setF_self_obj]
  rfl

theorem appendAt_obj (fs : List (String × JVal)) (k : String) (v : JVal) :
    ∃ fs2, appendAt k v (.obj fs) = .obj fs2 :=
  ⟨_, rfl⟩

/-- Whether an operation is inside its critical section (between a
successful acquire and the release). -/
def inCS : OpPhase → Prop
  | .locked => True
  | .readDone _ => True
  | .written => True
  | _ => False

/-- The inductive invariant for two same-key operations: mutual exclusion of
the critical sections, the key locked while one is inside, written values
persisting in the stored document, a reader's local copy containing every
finished operation's value, and all documents being objects. -/
def RaceInv (k : String) (v0 v1 : JVal) (s : RaceState) : Prop :=
  (¬ (inCS s.op0 ∧ inCS s.op1)) ∧
  ((inCS s.op0 ∨ inCS s.op1) → k ∈ s.locks) ∧
  (s.op0 = .written ∨ s.op0 = .finished → v0 ∈ asArr (s.doc.getF k)) ∧
  (s.op1 = .written ∨ s.op1 = .finished → v1 ∈ asArr (s.doc.getF k)) ∧
  (∀ d, s.op0 = .readDone d → s.op1 = .finished →
    v1 ∈ asArr (d.getF k)) ∧
  (∀ d, s.op1 = .readDone d → s.op0 = .finished →
    v0 ∈ asArr (d.getF k)) ∧
  (∃ fs, s.doc = .obj fs) ∧
  (∀ d, s.op0 = .readDone d → ∃ fs, d = .obj fs) ∧
  (∀ d, s.op1 = .readDone d → ∃ fs, d = .obj fs)

theorem raceInv_init (k : String) (v0 v1 : JVal)
    (fs0 : List (String × JVal)) : RaceInv k v0 v1 (raceInit (.obj fs0)) := by
  refine ⟨?_, ?_, ?_, ?_, ?_, ?_, ⟨fs0, rfl⟩, ?_, ?_⟩ <;>
    simp [raceInit, inCS]

theorem raceInv_step (k : String) (v0 v1 : JVal) {s s' : RaceState}
    (hstep : RaceStep k k v0 v1 s s') (hinv : RaceInv k v0 v1 s) :
    RaceInv k v0 v1 s' := by
  obtain ⟨i1, i2, i3, i4, i5, i6, i7, i8, i9⟩ := hinv
  cases hstep with
  | acquire0 h1 h2 =>
    refine ⟨?_, ?_, ?_, i4, ?_, ?_, i7, ?_, i9⟩
    · rintro ⟨-, hcs⟩
      exact absurd (i2 (Or.inr hcs)) h2
    · intro _
      exact List.mem_cons_self k s.locks
    · rintro (h | h) <;> simp at h
    · intro d hd
      simp at hd
    · intro d hd hf
      simp at hf
    · intro d hd
      simp at hd
  | read0 h =>
    refine ⟨?_, ?_, ?_, i4, ?_, ?_, i7, ?_, i9⟩
    · rintro ⟨-, hcs⟩
      exact i1 ⟨by rw [h]; trivial, hcs⟩
    · intro _
      exact i2 (Or.inl (by rw [h]; trivial))
    · rintro (hh | hh) <;> simp at hh
    · intro d hd hf
      have hd2 : OpPhase.readDone s.doc = .readDone d := hd
      injection hd2 with hd2
      subst hd2
      exact i4 (Or.inr hf)
    · intro d hd hf
      simp at hf
    · intro d hd
      have hd2 : OpPhase.readDone s.doc = .readDone d := hd
      injection hd2 with hd2
      subst hd2
      exact i7
  | write0 d hrd =>
    obtain ⟨fsd, hdeq⟩ := i8 d hrd
    subst hdeq
    refine ⟨?_, ?_, ?_, ?_, ?_, ?_, ?_, ?_, i9⟩
    · rintro ⟨-, hcs⟩
      exact i1 ⟨by rw [hrd]; trivial, hcs⟩
    · intro _
      exact i2 (Or.inl (by rw [hrd]; trivial))
    · intro _
      show v0 ∈ asArr ((appendAt k v0 (.obj fsd)).getF k)
      rw [appendAt_getF]
      exact List.mem_append_right _ (List.mem_singleton_self v0)
    · rintro (h | h)
      · exact absurd ⟨by rw [hrd]; trivial, by rw [h]; trivial⟩ i1
      · have hv := i5 (.obj fsd) hrd h
        show v1 ∈ asArr ((appendAt k v0 (.obj fsd)).getF k)
        rw [appendAt_getF]
        exact List.mem_append_left _ hv
    · intro d2 hd2
      simp at hd2
    · intro d2 hd2 hf
      simp at hf
    · exact appendAt_obj fsd k v0
    · intro d2 hd2
      simp at hd2
  | release0 h =>
    refine ⟨?_, ?_, ?_, i4, ?_, ?_, i7, ?_, i9⟩
    · rintro ⟨hc, -⟩
      exact hc
    · rintro (hc | hc)
      · exact hc.elim
      · exact absurd ⟨by rw [h]; trivial, hc⟩ i1
    · intro _
      exact i3 (Or.inl h)
    · intro d hd hf
      simp at hd
    · intro d hd hf
      exact absurd ⟨by rw [h]; trivial, by rw [hd]; trivial⟩ i1
    · intro d hd
      simp at hd
  | acquire1 h1 h2 =>
    refine ⟨?_, ?_, i3, ?_, ?_, ?_, i7, i8, ?_⟩
    · rintro ⟨hcs, -⟩
      exact absurd (i2 (Or.inl hcs)) h2
    · intro _
      exact List.mem_cons_self k s.locks
    · rintro (h | h) <;> simp at h
    · intro d hd hf
      simp at hf
    · intro d hd
      simp at hd
    · intro d hd
      simp at hd
  | read1 h =>
    refine ⟨?_, ?_, i3, ?_, ?_, ?_, i7, i8, ?_⟩
    · rintro ⟨hcs, -⟩
      exact i1 ⟨hcs, by rw [h]; trivial⟩
    · intro _
      exact i2 (Or.inr (by rw [h]; trivial))
    · rintro (hh | hh) <;> simp at hh
    · intro d hd hf
      simp at hf
    · intro d hd hf
      have hd2 : OpPhase.readDone s.doc = .readDone d := hd
      injection hd2 with hd2
      subst hd2
      exact i3 (Or.inr hf)
    · intro d hd
      have hd2 : OpPhase.readDone s.doc = .readDone d := hd
      injection hd2 with hd2
      subst hd2
      exact i7
  | write1 d hrd =>
    obtain ⟨fsd, hdeq⟩ := i9 d hrd
    subst hdeq
    refine ⟨?_, ?_, ?_, ?_, ?_, ?_, ?_, i8, ?_⟩
    · rintro ⟨hcs, -⟩
      exact i1 ⟨hcs, by rw [hrd]; trivial⟩
    · intro _
      exact i2 (Or.inr (by rw [hrd]; trivial))
    · rintro (h | h)
      · exact absurd ⟨by rw [h]; trivial, by rw [hrd]; trivial⟩ i1
      · have hv := i6 (.obj fsd) hrd h
        show v0 ∈ asArr ((appendAt k v1 (.obj fsd)).getF k)
        rw [appendAt_getF]
        exact List.mem_append_left _ hv
    · intro _
      show v1 ∈ asArr ((appendAt k v1 (.obj fsd)).getF k)
      rw [appendAt_getF]
      exact List.mem_append_right _ (List.mem_singleton_self v1)
    · intro d2 hd2 hf
      simp at hf
    · intro d2 hd2
      simp at hd2
    · exact appendAt_obj fsd k v1
    · intro d2 hd2
      simp at hd2
  | release1 h =>
    refine ⟨?_, ?_, i3, ?_, ?_, ?_, i7, i8, ?_⟩
    · rintro ⟨-, hc⟩
      exact hc
    · rintro (hc | hc)
      · exact absurd ⟨hc, by rw [h]; trivial⟩ i1
      · exact hc.elim
    · intro _
      exact i4 (Or.inl h)
    · intro d hd hf
      exact absurd ⟨by rw [hd]; trivial, by rw [h]; trivial⟩ i1
    · intro d hd hf
      simp at hd
    · intro d hd
      simp at hd

theorem raceInv_reaches (k : String) (v0 v1 : JVal)
    (fs0 : List (String × JVal)) {s : RaceState}
    (h : RaceReaches k k v0 v1 (raceInit (.obj fs0)) s) :
    RaceInv k v0 v1 s := by
  induction h with
  | refl => exact raceInv_init k v0 v1 fs0
  | tail _ hstep ih => exact raceInv_step k v0 v1 hstep ih

/-- **C2.** For two concurrent operations on distinct keys `"a" ≠ "b"`
sharing one document file, some interleaving lets both read the document
before either writes, and the completed state lacks the first writer's
change for its key (a lost update); whereas for two concurrent operations
on the same key, in every completed interleaving the per-key lock
serializes the critical sections and both appended values are present in
the stored document — no update is lost. -/
theorem c2_cross_key_race :
    (∃ s : RaceState,
      RaceReaches "a" "b" (.num 1) (.num 2) (raceInit (.obj [])) s ∧
      s.op0 = .finished ∧ s.op1 = .finished ∧
      JVal.num 1 ∉ asArr (s.doc.getF "a")) ∧
    (∀ (k : String) (v0 v1 : JVal) (fs0 : List (String × JVal))
        (s : RaceState),
      RaceReaches k k v0 v1 (raceInit (.obj fs0)) s →
      s.op0 = .finished → s.op1 = .finished →
      v0 ∈ asArr (s.doc.getF k) ∧ v1 ∈ asArr (s.doc.getF k)) := by
  constructor
  · refine ⟨⟨appendAt "b" (.num 2) (.obj []),
      releaseLock "b" (releaseLock "a" ["b", "a"]), .finished, .finished⟩,
      ?_, rfl, rfl, ?_⟩
    · have e1 : RaceStep "a" "b" (.num 1) (.num 2)
          ⟨.obj [], [], .start, .start⟩
          ⟨.obj [], ["a"], .locked, .start⟩ :=
        RaceStep.acquire0 _ rfl (by simp)
      have e2 : RaceStep "a" "b" (.num 1) (.num 2)
          ⟨.obj [], ["a"], .locked, .start⟩
          ⟨.obj [], ["a"], .readDone (.obj []), .start⟩ :=
        RaceStep.read0 _ rfl
      have e3 : RaceStep "a" "b" (.num 1) (.num 2)
          ⟨.obj [], ["a"], .readDone (.obj []), .start⟩
          ⟨.obj [], ["b", "a"], .readDone (.obj []), .locked⟩ :=
        RaceStep.acquire1 _ rfl (by decide)
      have e4 : RaceStep "a" "b" (.num 1) (.num 2)
          ⟨.obj [], ["b", "a"], .readDone (.obj []), .locked⟩
          ⟨.obj [], ["b", "a"], .readDone (.obj []), .readDone (.obj [])⟩ :=
        RaceStep.read1 _ rfl
      have e5 : RaceStep "a" "b" (.num 1) (.num 2)
          ⟨.obj [], ["b", "a"], .readDone (.obj []), .readDone (.obj [])⟩
          ⟨appendAt "a" (.num 1) (.obj []), ["b", "a"], .written,
            .readDone (.obj [])⟩ :=
        RaceStep.write0 _ (.obj []) rfl
      have e6 : RaceStep "a" "b" (.num 1) (.num 2)
          ⟨appendAt "a" (.num 1) (.obj []), ["b", "a"], .written,
            .readDone (.obj [])⟩
          ⟨appendAt "a" (.num 1) (.obj []), releaseLock "a" ["b", "a"],
            .finished, .readDone (.obj [])⟩ :=
        RaceStep.release0 _ rfl
      have e7 : RaceStep "a" "b" (.num 1) (.num 2)
          ⟨appendAt "a" (.num 1) (.obj []), releaseLock "a" ["b", "a"],
            .finished, .readDone (.obj [])⟩
          ⟨appendAt "b" (.num 2) (.obj []), releaseLock "a" ["b", "a"],
            .finished, .written⟩ :=
        RaceStep.write1 _ (.obj []) rfl
      have e8 : RaceStep "a" "b" (.num 1) (.num 2)
          ⟨appendAt "b" (.num 2) (.obj []), releaseLock "a" ["b", "a"],
            .finished, .written⟩
          ⟨appendAt "b" (.num 2) (.obj []),
            releaseLock "b" (releaseLock "a" ["b", "a"]), .finished,
            .finished⟩ :=
        RaceStep.release1 _ rfl
      exact Relation.ReflTransGen.tail (Relation.ReflTransGen.tail
        (Relation.ReflTransGen.tail (Relation.ReflTransGen.tail
        (Relation.ReflTransGen.tail (Relation.ReflTransGen.tail
        (Relation.ReflTransGen.tail (Relation.ReflTransGen.single e1)
        e2) e3) e4) e5) e6) e7) e8
    · exact List.not_mem_nil _
  · intro k v0 v1 fs0 s hreach h0 h1
    obtain ⟨-, -, i3, i4, -⟩ := raceInv_reaches k v0 v1 fs0 hreach
    exact ⟨i3 (Or.inr h0), i4 (Or.inr h1)⟩

/-- Witness for the same-key half of C2: the serialized trace of two
operations appending `1` then `2` under key `"a"` ends with both values
stored. -/
theorem c2_cross_key_race_witness :
    JVal.num 1 ∈ asArr ((appendAt "a" (.num 2)
        (appendAt "a" (.num 1) (.obj []))).getF "a") ∧
    JVal.num 2 ∈ asArr ((appendAt "a" (.num 2)
        (appendAt "a" (.num 1) (.obj []))).getF "a") := by
  have e1 : RaceStep "a" "a" (.num 1) (.num 2)
      ⟨.obj [], [], .start, .start⟩
      ⟨.obj [], ["a"], .locked, .start⟩ :=
    RaceStep.acquire0 _ rfl (by simp)
  have e2 : RaceStep "a" "a" (.num 1) (.num 2)
      ⟨.obj [], ["a"], .locked, .start⟩
      ⟨.obj [], ["a"], .readDone (.obj []), .start⟩ :=
    RaceStep.read0 _ rfl
  have e3 : RaceStep "a" "a" (.num 1) (.num 2)
      ⟨.obj [], ["a"], .readDone (.obj []), .start⟩
      ⟨appendAt "a" (.num 1) (.obj []), ["a"], .written, .start⟩ :=
    RaceStep.write0 _ (.obj []) rfl
  have e4 : RaceStep "a" "a" (.num 1) (.num 2)
      ⟨appendAt "a" (.num 1) (.obj []), ["a"], .written, .start⟩
      ⟨appendAt "a" (.num 1) (.obj []), releaseLock "a" ["a"], .finished,
        .start⟩ :=
    RaceStep.release0 _ rfl
  have e5 : RaceStep "a" "a" (.num 1) (.num 2)
      ⟨appendAt "a" (.num 1) (.obj []), releaseLock "a" ["a"], .finished,
        .start⟩
      ⟨appendAt "a" (.num 1) (.obj []),
        acquireLockNow "a" (releaseLock "a" ["a"]), .finished, .locked⟩ :=
    RaceStep.acquire1 _ rfl (by decide)
  have e6 : RaceStep "a" "a" (.num 1) (.num 2)
      ⟨appendAt "a" (.num 1) (.obj []),
        acquireLockNow "a" (releaseLock "a" ["a"]), .finished, .locked⟩
      ⟨appendAt "a" (.num 1) (.obj []),
        acquireLockNow "a" (releaseLock "a" ["a"]), .finished,
        .readDone (appendAt "a" (.num 1) (.obj []))⟩ :=
    RaceStep.read1 _ rfl
  have e7 : RaceStep "a" "a" (.num 1) (.num 2)
      ⟨appendAt "a" (.num 1) (.obj []),
        acquireLockNow "a" (releaseLock "a" ["a"]), .finished,
        .readDone (appendAt "a" (.num 1) (.obj []))⟩
      ⟨appendAt "a" (.num 2) (appendAt "a" (.num 1) (.obj [])),
        acquireLockNow "a" (releaseLock "a" ["a"]), .finished, .written⟩ :=
    RaceStep.write1 _ (appendAt "a" (.num 1) (.obj [])) rfl
  have e8 : RaceStep "a" "a" (.num 1) (.num 2)
      ⟨appendAt "a" (.num 2) (appendAt "a" (.num 1) (.obj [])),
        acquireLockNow "a" (releaseLock "a" ["a"]), .finished, .written⟩
      ⟨appendAt "a" (.num 2) (appendAt "a" (.num 1) (.obj [])),
        releaseLock "a" (acquireLockNow "a" (releaseLock "a" ["a"])),
        .finished, .finished⟩ :=
    RaceStep.release1 _ rfl
  have trace : RaceReaches "a" "a" (.num 1) (.num 2) (raceInit (.obj []))
      ⟨appendAt "a" (.num 2) (appendAt "a" (.num 1) (.obj [])),
        releaseLock "a" (acquireLockNow "a" (releaseLock "a" ["a"])),
        .finished, .finished⟩ :=
    Relation.ReflTransGen.tail (Relation.ReflTransGen.tail
      (Relation.ReflTransGen.tail (Relation.ReflTransGen.tail
      (Relation.ReflTransGen.tail (Relation.ReflTransGen.tail
      (Relation.ReflTransGen.tail (Relation.ReflTransGen.single e1)
      e2) e3) e4) e5) e6) e7) e8
  exact c2_cross_key_race.2 "a" (.num 1) (.num 2) [] _ trace rfl rfl

end WhatsAppFlow
